import Mathlib

/-!
Verification development for the KnowledgeLLM repository.

Shallow embedding of the two core subsystems:

* the image-library indexing engine (`src/library/image/image_lib.py`,
  class `ImageLib`, with its SQL row shape from `src/library/image/sql.py`),
  modelled as a pure state machine `LibState` with one Lean function per
  public method;
* the two-stage retrieval pipeline (`embedding_retriever.py`, class
  `DocEmbeddingRetriever`), modelled as pure functions over an explicit
  retriever record whose external capabilities (sentence transformer,
  cross-encoder, faiss index, document provider) are oracle fields.

Machine floats (embedding coordinates, ranker scores) are modelled as
integers: no claim below depends on real-number arithmetic, only on
equality, ordering and list structure of these values.
-/

namespace KnowledgeLLM

/-! ## Image library: data model -/

/-- One embeddable file on disk, as seen by the scan in `ImageLib.__do_scan`:
its relative path under the library root, whether PIL accepts it as a valid
image (`Image.open` + `verify` succeed), and the embedding the embedder
would produce for it (`ImageEmbedder.embed_image_as_list`, floats modelled
as integers). -/
structure FileEntry where
  path : String
  valid : Bool
  emb : List Int
deriving Repr, DecidableEq

/-- One row of the image-library metadata table, following the column list
`record_structure` of `src/library/image/sql.py` (the auto-increment `id`
column is represented by list position). `path` is the parent folder
(`os.path.dirname`) and `filename` the basename, as written by
`ImageLib.__write_embedding_entry`. -/
structure Row where
  timestamp : Nat
  uuid : String
  path : String
  filename : String
deriving Repr, DecidableEq

/-- Errors surfaced by the library operations: `cancelled` stands for
`TaskCancellationException`, `libraryError` for `LibraryError`, and
`lockFailure` for `LockAcquisitionFailure`. -/
inductive LibErr where
  | cancelled
  | libraryError
  | lockFailure
deriving Repr, DecidableEq

/-- Modelled from the spec: the state of one `ImageLib` instance together
with its two stores and persisted artefacts.  The classes `LibraryBase`,
`ImageLibTable` and `ImageLibVectorDb` are not part of the provided
sources; their contracts are taken from the spec (metadata store =
relational table of item records, vector store = uuid-keyed vectors,
scan profile = path-to-uuid mapping that is the source of truth for
"already embedded", library metadata with a last-scanned timestamp).

* `loaded`: the table/vector-db objects have been constructed
  (`self.__table`/`self.__vector_db` are not `None`);
* `embedderSet`: `set_embedder` has been called;
* `table`: contents of the metadata table (`ImageLibTable`);
* `vdb`: contents of the vector store (`ImageLibVectorDb`), uuid-keyed;
* `profile`: the in-memory embedded-files mapping `get_embedded_files()`;
* `savedProfile`: the persisted scan profile (`_save_scan_profile`);
* `lastScanned` / `savedLastScanned`: the in-memory and persisted
  `last_scanned` metadata field, timestamps modelled as naturals;
* `ctr`: position in the uuid supply (each `uuid4()` call consumes one). -/
@[ext]
structure LibState where
  loaded : Bool
  embedderSet : Bool
  localMode : Bool
  table : List Row
  vdb : List (String × List Int)
  profile : List (String × String)
  savedProfile : List (String × String)
  lastScanned : Nat
  savedLastScanned : Nat
  ctr : Nat
deriving Repr, DecidableEq

/-- Models `ImageLib.lib_is_ready`: metadata exists (always true once constructed,
the constructor guarantees it), the table and vector db are loaded and the
embedder is set. -/
def lib_is_ready (s : LibState) : Bool :=
  s.loaded && s.embedderSet

/-- Models `os.path.dirname` restricted to `/`-separated relative paths: the part
of the path before its last separator (empty when there is none). -/
def dirname (p : String) : String :=
  String.mk (((p.toList.reverse.dropWhile (fun c => c ≠ '/')).drop 1).reverse)

/-- Models `os.path.basename` restricted to `/`-separated relative paths: the part
of the path after its last separator. -/
def basename (p : String) : String :=
  String.mk ((p.toList.reverse.takeWhile (fun c => c ≠ '/')).reverse)

/-- Models `relative_path.lstrip(os.path.sep)` for `/` as separator. -/
def lstripSep (p : String) : String :=
  String.mk (p.toList.dropWhile (fun c => c = '/'))

/-- Python dict assignment `m[k] = v` on an insertion-ordered association
list: update in place when the key is present, append otherwise. -/
def dictSet (m : List (String × String)) (k v : String) :
    List (String × String) :=
  if (m.lookup k).isSome then
    m.map (fun kv => if kv.1 = k then (k, v) else kv)
  else
    m ++ [(k, v)]

/-- Models `ImageLib.__write_embedding_entry`: generate a uuid, insert the row
`(timestamp, uuid, dirname, basename)` into the table, add the vector under
that uuid, and record `relative_path -> uuid` in the embedded-files
mapping.  The uuid supply `gen` stands for `uuid4()`; `now` for
`datetime.now()`. -/
def writeEmbeddingEntry (gen : Nat → String) (now : Nat) (s : LibState)
    (relative_path : String) (embedding : List Int) : LibState :=
  let uuid := gen s.ctr
  { s with
    table := s.table ++ [⟨now, uuid, dirname relative_path, basename relative_path⟩],
    vdb := s.vdb ++ [(uuid, embedding)],
    profile := dictSet s.profile relative_path uuid,
    ctr := s.ctr + 1 }

/-- The full-scan consumption loop of `ImageLib.__scan_and_initialize` over
the generator `__do_scan`: invalid images are skipped inside the generator
(never yielded, hence never polled); for each yielded item the cancel token
is polled once (argument `n` counts yielded items), an empty embedding
aborts with `LibraryError`, otherwise the paired write is performed.  The
batched-pipeline branch and the per-item branch of the source write the
same entries to the same stores; the model's vector store abstracts over
the batching, which is sound here because the only observation the claims
make of a still-open batch is through `clean_all_data`, which discards
staged and flushed writes alike.  The returned state is the state at
normal or exceptional exit. -/
def scanLoop (gen : Nat → String) (now : Nat) (cancel : Nat → Bool) :
    List FileEntry → Nat → LibState → LibState × Option LibErr
  | [], _, s => (s, none)
  | f :: rest, n, s =>
    if f.valid then
      if cancel n then (s, some .cancelled)
      else if f.emb = [] then (s, some .libraryError)
      else scanLoop gen now cancel rest (n + 1)
        (writeEmbeddingEntry gen now s f.path f.emb)
    else scanLoop gen now cancel rest n s

/-- Models `ImageLib.__scan_and_initialize`: run the scan loop from item 0; on
normal completion persist the vector db and the scan profile
(`_save_scan_profile`); exceptions propagate to the caller with the
mutated state. -/
def scanAndInit (gen : Nat → String) (now : Nat) (cancel : Nat → Bool)
    (files : List FileEntry) (s : LibState) : LibState × Option LibErr :=
  match scanLoop gen now cancel files 0 s with
  | (s4, none) => ({ s4 with savedProfile := s4.profile }, none)
  | (s4, some e) => (s4, some e)

/-- Models `ImageLib.initialize(force_init, progress_reporter, cancel_event)`.
`extLocked` models the scan lock being already held by another task when
the `LockContext` try-acquire runs (Modelled from the spec: a single
non-blocking mutual-exclusion lock; acquisition never queues).  Branches in
source order: early return when ready and not forced; `LibraryError` when
the embedder is unset; load the table and vector db when not ready; early
return for a loaded non-empty library when not forced; purge both stores
(the `lib_is_ready` recheck after loading always succeeds); non-blocking
lock acquire; persist `last_scanned = now` (`_save_metadata`); scan; on
`TaskCancellationException` clean both stores and return normally. -/
def initializeLib (gen : Nat → String) (now : Nat) (files : List FileEntry)
    (cancel : Nat → Bool) (extLocked force : Bool) (s : LibState) :
    LibState × Option LibErr :=
  if lib_is_ready s && !force then (s, none)
  else if !(lib_is_ready s) && !s.embedderSet then (s, some .libraryError)
  else
    let s1 := if lib_is_ready s then s else { s with loaded := true }
    if !force && decide (0 < s1.table.length) && !s1.vdb.isEmpty then (s1, none)
    else
      let s2 := if lib_is_ready s1 then { s1 with table := [], vdb := [] } else s1
      if extLocked then (s2, some .lockFailure)
      else
        let s3 := { s2 with lastScanned := now, savedLastScanned := now }
        match scanAndInit gen now cancel files s3 with
        | (s4, none) => (s4, none)
        | (s4, some .cancelled) => ({ s4 with table := [], vdb := [] }, none)
        | (s4, some e) => (s4, some e)

/-- Models `ImageLib.demolish`: non-blocking lock acquire first; in Redis mode the
vector db must be loaded; then every per-library artefact is purged
(Modelled from the spec: `shutil.rmtree` deletes the library data folder,
i.e. the persisted table, vector index, metadata and scan profile). -/
def demolish (extLocked : Bool) (s : LibState) : LibState × Option LibErr :=
  if extLocked then (s, some .lockFailure)
  else if !s.localMode && !s.loaded then (s, some .libraryError)
  else
    ({ s with loaded := false, embedderSet := false, table := [], vdb := [],
              savedProfile := [], savedLastScanned := 0 }, none)

/-- The stripped forms of the non-empty paths in a `remove_embeddings`
request, in request order: `p.lstrip(os.path.sep)` for each `p` with empty
paths skipped. -/
def removalKeys (relative_paths : List String) : List String :=
  (relative_paths.filter (fun p => p ≠ "")).map lstripSep

/-- The body of the `remove_embeddings` loop for one requested path: empty
paths are skipped, the path is stripped of leading separators, and when the
embedded-files mapping knows it, the mapped uuid's vector and table row are
removed and the mapping entry is popped. -/
def removeOne (st : LibState) (p : String) : LibState :=
  if p = "" then st
  else
    let q := lstripSep p
    match st.profile.lookup q with
    | some uuid =>
      { st with
        vdb := st.vdb.filter (fun kv => !(kv.1 == uuid)),
        table := st.table.filter (fun r => !(r.uuid == uuid)),
        profile := st.profile.eraseP (fun kv => kv.1 == q) }
    | none => st

/-- Models `ImageLib.remove_embeddings(relative_paths)`: guarded by
`ensure_lib_is_ready` (Modelled from the spec: operations invoked out of
order are a usage error); empty request returns at once; otherwise each
requested path is handled by `removeOne` in order and finally the scan
profile is persisted. -/
def removeEmbeddings (s : LibState) (relative_paths : List String) :
    LibState × Option LibErr :=
  if !(lib_is_ready s) then (s, some .libraryError)
  else if relative_paths.isEmpty then (s, none)
  else
    let t := relative_paths.foldl removeOne s
    ({ t with savedProfile := t.profile }, none)

/-- Models `ImageLib.delete_files(relative_paths)`: empty request returns at once;
otherwise the files are unlinked on disk (outside the modelled state) and
`remove_embeddings` is invoked on the same list. -/
def deleteFiles (s : LibState) (relative_paths : List String) :
    LibState × Option LibErr :=
  if relative_paths.isEmpty then (s, none)
  else removeEmbeddings s relative_paths

/-- Models `ImageLib.incremental_initialization(progress_reporter, cancel_event)`:
with an empty embedded-files mapping it delegates to
`initialize(True, ...)`; otherwise it only checks the embedder and loads
the table and vector db when not ready, and returns. -/
def incrementalInitialization (gen : Nat → String) (now : Nat)
    (files : List FileEntry) (cancel : Nat → Bool) (extLocked : Bool)
    (s : LibState) : LibState × Option LibErr :=
  if s.profile.isEmpty then initializeLib gen now files cancel extLocked true s
  else if !(lib_is_ready s) && !s.embedderSet then (s, some .libraryError)
  else (if lib_is_ready s then s else { s with loaded := true }, none)

/-! ## Image library: progress reporting (`__do_scan`, lines 125-143)

`total` is the number of items to embed, `i` the enumeration index over
all of them (valid or not), `prev` the last reported value (initially
`-1`).  Invalid images `continue` before the progress block.  The source
computes `int(i / total * 100)`; real division truncated toward zero is
modelled as natural floor division `i * 100 / total`, which agrees with
the source on the properties at stake (range and monotonicity in `i`). -/

/-- The sequence of values handed to `report_progress` during one scan,
given the per-item validation outcomes in iteration order. -/
def progressValues (total : Nat) :
    List Bool → Nat → Int → List Nat
  | [], _, _ => []
  | v :: rest, i, prev =>
    if v then
      let cur : Nat := i * 100 / total
      if prev < (cur : Int) then cur :: progressValues total rest (i + 1) (cur : Int)
      else progressValues total rest (i + 1) prev
    else progressValues total rest (i + 1) prev

/-- All progress values reported during a scan whose items have the given
validation outcomes (Modelled from the spec: `LibraryBase.report_progress`
invokes the progress reporter with the integer it is given). -/
def reportedProgress (valids : List Bool) : List Nat :=
  progressValues valids.length valids 0 (-1)

/-! ## Retrieval pipeline (`embedding_retriever.py`) -/

/-- One row of the wechat history table, as used by the retriever: only its
`message` column is read. -/
structure ChatRecord where
  message : String
deriving Repr, DecidableEq

/-- Modelled from the spec: the external capabilities of
`DocEmbeddingRetriever`.  `transformerEncode` is the sentence transformer
(`embed(item) -> vector`, deterministic), `rankerPredict` the cross-encoder
score of one (query, candidate) pair (`score(query, candidate) ->
relevance`), `index` the trained faiss index when built (`search` returns
the id row `I[0]` for a query embedding and a requested neighbor count),
and `doc_provider` the document store when attached
(`get_record_by_id`). Floats are modelled as integers. -/
structure DocEmbeddingRetriever where
  transformerEncode : String → List Int
  rankerPredict : String → String → Int
  index : Option (List Int → Int → List Int)
  doc_provider : Option (Int → Option ChatRecord)

/-- The strict-weak order underlying `np.argsort` on a score list, made
total on index pairs: ascending score, ties by ascending index.  The
source's reliance on `np.argsort`'s ordering among equal keys is modelled
as the stable (index-ascending) choice. -/
def ascLE (scores : List Int) (i j : Nat) : Prop :=
  scores.getD i 0 < scores.getD j 0 ∨
    (scores.getD i 0 = scores.getD j 0 ∧ i ≤ j)

instance (scores : List Int) : DecidableRel (ascLE scores) := fun i j => by
  unfold ascLE; exact inferInstanceAs (Decidable (_ ∨ _))

instance (scores : List Int) : IsTotal Nat (ascLE scores) where
  total i j := by
    unfold ascLE
    rcases lt_trichotomy (scores.getD i 0) (scores.getD j 0) with h | h | h
    · exact Or.inl (Or.inl h)
    · rcases Nat.le_total i j with hij | hij
      · exact Or.inl (Or.inr ⟨h, hij⟩)
      · exact Or.inr (Or.inr ⟨h.symm, hij⟩)
    · exact Or.inr (Or.inl h)

instance (scores : List Int) : IsTrans Nat (ascLE scores) where
  trans i j k hij hjk := by
    unfold ascLE at *
    rcases hij with h1 | ⟨e1, l1⟩
    · rcases hjk with h2 | ⟨e2, _⟩
      · exact Or.inl (h1.trans h2)
      · exact Or.inl (e2 ▸ h1)
    · rcases hjk with h2 | ⟨e2, l2⟩
      · exact Or.inl (e1 ▸ h2)
      · exact Or.inr ⟨e1.trans e2, l1.trans l2⟩

/-- Models `np.argsort(scores)`: the indices `0..len-1` sorted by ascending score
(ties in ascending index order). -/
def argsortAsc (scores : List Int) : List Nat :=
  List.insertionSort (ascLE scores) (List.range scores.length)

/-- The pure core of `DocEmbeddingRetriever.__rerank`: score each
(query, candidate) pair, `np.argsort(scores)[::-1]`, and return the
candidates in that index order. -/
def rerankList (score : String → String → Int) (text : String)
    (candidates : List String) : List String :=
  let scores := candidates.map (score text)
  let sorted_ids := (argsortAsc scores).reverse
  sorted_ids.map (fun i => candidates.getD i "")

/-- Python `lst[:k]` for an `int` bound `k` (negative bounds count from
the end). -/
def pySliceTo {α : Type} (l : List α) (k : Int) : List α :=
  if 0 ≤ k then l.take k.toNat else l.take (l.length - (-k).toNat)

/-- Models `DocEmbeddingRetriever.__retrieve(text, top_k)`: usage error before
`initialize`; empty text or non-positive `top_k` give the empty list;
otherwise the index is searched for `top_k` neighbor ids and each id is
resolved through the document provider, unresolvable ids dropped
silently. -/
def retrieve (r : DocEmbeddingRetriever) (text : String) (top_k : Int) :
    Except String (List String) :=
  match r.doc_provider, r.index with
  | some dp, some idx =>
    if text = "" ∨ top_k ≤ 0 then .ok []
    else .ok ((idx (r.transformerEncode text) top_k).filterMap
        (fun i => (dp i).map ChatRecord.message))
  | _, _ => .error "Not initialized"

/-- Models `DocEmbeddingRetriever.__rerank(text, candidates)`: usage error before
`initialize`, otherwise the pure rerank of the candidates. -/
def rerank (r : DocEmbeddingRetriever) (text : String)
    (candidates : List String) : Except String (List String) :=
  match r.doc_provider, r.index with
  | some _, some _ => .ok (rerankList r.rankerPredict text candidates)
  | _, _ => .error "Not initialized"

/-- Models `DocEmbeddingRetriever.query(query_text, top_k)`: retrieve
`top_k * 20` candidates, filter out `None` entries (none are ever
produced), rerank, and truncate with `[:top_k]`. -/
def query (r : DocEmbeddingRetriever) (query_text : String) (top_k : Int) :
    Except String (List String) :=
  match retrieve r query_text (top_k * 20) with
  | .error e => .error e
  | .ok candidates =>
    match rerank r query_text (candidates.filterMap (fun s => some s)) with
    | .error e => .error e
    | .ok reranked => .ok (pySliceTo reranked top_k)

/-! ## Closed forms and invariants used by the theorems -/

/-- The table rows appended by an uninterrupted scan over `files` whose
uuid supply starts at `c`. -/
def newRows (gen : Nat → String) (now : Nat) : Nat → List FileEntry → List Row
  | _, [] => []
  | c, f :: rest =>
    ⟨now, gen c, dirname f.path, basename f.path⟩ :: newRows gen now (c + 1) rest

/-- The vectors appended by an uninterrupted scan over `files` whose uuid
supply starts at `c`. -/
def newVecs (gen : Nat → String) : Nat → List FileEntry → List (String × List Int)
  | _, [] => []
  | c, f :: rest => (gen c, f.emb) :: newVecs gen (c + 1) rest

/-- The embedded-files mapping after an uninterrupted scan over `files`
whose uuid supply starts at `c`, starting from mapping `m`. -/
def updProfile (gen : Nat → String) :
    Nat → List FileEntry → List (String × String) → List (String × String)
  | _, [], m => m
  | c, f :: rest, m => updProfile gen (c + 1) rest (dictSet m f.path (gen c))

/-- Whether uuid `u` belongs to a profile entry whose key is in the removal
set `R` (the uuids `remove_embeddings` deletes rows and vectors for). -/
def uuidRemoved (profile : List (String × String)) (R : List String)
    (u : String) : Bool :=
  profile.any (fun pu => R.contains pu.1 && pu.2 == u)

/-- Dual-store consistency of a library state: the embedded-files mapping
has no duplicate paths and no duplicate uuids, and every uuid it records
has exactly one table row and exactly one vector. -/
def Consistent (s : LibState) : Prop :=
  (s.profile.map Prod.fst).Nodup ∧ (s.profile.map Prod.snd).Nodup ∧
    ∀ pu ∈ s.profile,
      s.table.countP (fun r => r.uuid == pu.2) = 1 ∧
      s.vdb.countP (fun kv => kv.1 == pu.2) = 1

/-- The unconsumed part of the uuid supply is fresh for the state: no uuid
at position `ctr` or later occurs in the profile, the table or the vector
store. -/
def FreshSupply (gen : Nat → String) (s : LibState) : Prop :=
  ∀ n, s.ctr ≤ n →
    (∀ pu ∈ s.profile, pu.2 ≠ gen n) ∧
    (∀ r ∈ s.table, r.uuid ≠ gen n) ∧
    (∀ kv ∈ s.vdb, kv.1 ≠ gen n)

instance (s : LibState) : Decidable (Consistent s) := by
  unfold Consistent
  infer_instance

/-- The library invariant: dual-store consistency plus freshness of the
unconsumed uuid supply. -/
def Inv (gen : Nat → String) (s : LibState) : Prop :=
  Consistent s ∧ FreshSupply gen s

/-! ## Concrete scenarios referenced by counterexamples and witnesses -/

/-- An injective stand-in for the `uuid4()` supply: `n` maps to the string
of `n + 1` letters `a`. -/
def genA (n : Nat) : String := String.mk (List.replicate (n + 1) 'a')

/-- A freshly created library: embedder set, nothing loaded, both stores
empty, empty scan profile. -/
def s0 : LibState :=
  { loaded := false, embedderSet := true, localMode := true, table := [],
    vdb := [], profile := [], savedProfile := [], lastScanned := 0,
    savedLastScanned := 0, ctr := 0 }

/-- Two valid images on disk. -/
def files2 : List FileEntry := [⟨"a.jpg", true, [1]⟩, ⟨"b.jpg", true, [1]⟩]

/-- A cancel token that is observed set from the second polled item on. -/
def cancel1 (n : Nat) : Bool := decide (1 ≤ n)

/-- A full initialization of the fresh library over `files2` whose cancel
token trips after the first item was written. -/
def cancelRun : LibState × Option LibErr :=
  initializeLib genA 5 files2 cancel1 false false s0

/-- A loaded one-image library: `g.jpg` is embedded under uuid `ug` with
its row and vector present; the uuid supply continues at 1. -/
def sG : LibState :=
  { loaded := true, embedderSet := true, localMode := true,
    table := [⟨0, "ug", "", "g.jpg"⟩], vdb := [("ug", [1])],
    profile := [("g.jpg", "ug")], savedProfile := [("g.jpg", "ug")],
    lastScanned := 0, savedLastScanned := 0, ctr := 1 }

/-- Disk contents for the incremental scenario: `g.jpg` is gone and a new
valid image `f.jpg` is present. -/
def filesF : List FileEntry := [⟨"f.jpg", true, [2]⟩]

/-- A never-tripped cancel token. -/
def cancelNever (_ : Nat) : Bool := false

/-- A loaded one-image library used for the lock-contention scenario. -/
def sL : LibState :=
  { loaded := true, embedderSet := true, localMode := true,
    table := [⟨0, "u1", "", "x.jpg"⟩], vdb := [("u1", [1])],
    profile := [("x.jpg", "u1")], savedProfile := [("x.jpg", "u1")],
    lastScanned := 0, savedLastScanned := 0, ctr := 1 }

/-- A concrete faiss-search oracle: every search returns id 0 followed by
the padding id `-1` that faiss emits when fewer neighbors exist. -/
def idx0 : List Int → Int → List Int := fun _ _ => [0, -1]

/-- A concrete document provider with a single record at id 0. -/
def dp0 : Int → Option ChatRecord := fun i => if i = 0 then some ⟨"doc"⟩ else none

/-- An initialized retriever over a one-document corpus: every embedding is
`[0]`, the index is `idx0`, the provider is `dp0`, all ranker scores are 0. -/
def r0 : DocEmbeddingRetriever :=
  { transformerEncode := fun _ => [0],
    rankerPredict := fun _ _ => 0,
    index := some idx0,
    doc_provider := some dp0 }

/-- The library state at the moment the cancelled scan of `files2` (cancel
tripping at the second polled item) raises: one fully written entry for
`a.jpg` under uuid `genA 0 = "a"`. -/
def s4c : LibState :=
  { loaded := true, embedderSet := true, localMode := true,
    table := [⟨5, "a", "", "a.jpg"⟩], vdb := [("a", [1])],
    profile := [("a.jpg", "a")], savedProfile := [],
    lastScanned := 5, savedLastScanned := 5, ctr := 1 }

/-- An unbuilt retriever: neither index nor document provider. -/
def rUninit : DocEmbeddingRetriever :=
  { transformerEncode := fun _ => [0], rankerPredict := fun _ _ => 0,
    index := none, doc_provider := none }

/-- The uuids `gen c, gen (c+1), ..., gen (c+k-1)`. -/
def genRange (gen : Nat → String) : Nat → Nat → List String
  | _, 0 => []
  | c, k + 1 => gen c :: genRange gen (c + 1) k

/-! ## Helper lemmas: uuid ranges -/

lemma mem_genRange {gen : Nat → String} :
    ∀ {k c u}, u ∈ genRange gen c k → ∃ i, i < k ∧ u = gen (c + i) := by
  intro k
  induction k with
  | zero => intro c u h; simp [genRange] at h
  | succ k ih =>
    intro c u h
    rcases List.mem_cons.mp h with h | h
    · exact ⟨0, Nat.succ_pos _, by simpa using h⟩
    · obtain ⟨i, hi, hu⟩ := ih h
      exact ⟨i + 1, by omega, by rw [hu]; congr 1; omega⟩

lemma countP_genRange_zero {gen : Nat → String} (hgen : Function.Injective gen) :
    ∀ {k c n}, n < c → (genRange gen c k).countP (fun u => u == gen n) = 0 := by
  intro k
  induction k with
  | zero => intro c n _; simp [genRange]
  | succ k ih =>
    intro c n hn
    have hne : (gen c == gen n) = false := by
      simp only [beq_eq_false_iff_ne, ne_eq]
      intro h
      exact absurd (hgen h) (by omega)
    simp [genRange, List.countP_cons, hne, ih (show n < c + 1 by omega)]

lemma countP_genRange_one {gen : Nat → String} (hgen : Function.Injective gen) :
    ∀ {k c i}, i < k → (genRange gen c k).countP (fun u => u == gen (c + i)) = 1 := by
  intro k
  induction k with
  | zero => intro c i h; omega
  | succ k ih =>
    intro c i hi
    match i with
    | 0 =>
      have h0 : (gen c == gen (c + 0)) = true := by simp
      have hz : (genRange gen (c + 1) k).countP (fun u => u == gen (c + 0)) = 0 := by
        simpa using countP_genRange_zero hgen (show c < c + 1 by omega)
      have hcons : genRange gen c (k + 1) = gen c :: genRange gen (c + 1) k := rfl
      rw [hcons, List.countP_cons, hz]
      simp [h0]
    | j + 1 =>
      have hne : (gen c == gen (c + (j + 1))) = false := by
        simp only [beq_eq_false_iff_ne, ne_eq]
        intro h
        exact absurd (hgen h) (by omega)
      have hrw : c + (j + 1) = (c + 1) + j := by omega
      have := ih (show j < k by omega) (c := c + 1)
      simp only [genRange, List.countP_cons, hne, if_false]
      rw [hrw]
      simpa using this

/-! ## Helper lemmas: python dict assignment -/

lemma lookup_isSome_of_mem :
    ∀ {m : List (String × String)} {pu : String × String}, pu ∈ m →
      (m.lookup pu.1).isSome = true := by
  intro m
  induction m with
  | nil => intro pu h; simp at h
  | cons kv rest ih =>
    intro pu h
    obtain ⟨k, v⟩ := kv
    rcases List.mem_cons.mp h with h | h
    · subst h; simp [List.lookup]
    · by_cases hk : pu.1 == k
      · simp [List.lookup, hk]
      · simp only [List.lookup, hk]
        exact ih h

lemma not_mem_keys_of_lookup_none {m : List (String × String)} {k : String}
    (h : (m.lookup k).isSome = false) : k ∉ m.map Prod.fst := by
  intro hk
  obtain ⟨pu, hpu, hfst⟩ := List.mem_map.mp hk
  have := lookup_isSome_of_mem hpu
  rw [hfst, h] at this
  exact Bool.false_ne_true this

lemma mem_dictSet {m : List (String × String)} {k v : String}
    {pu : String × String} (h : pu ∈ dictSet m k v) :
    pu = (k, v) ∨ (pu ∈ m ∧ pu.1 ≠ k) := by
  unfold dictSet at h
  by_cases hs : (m.lookup k).isSome
  · rw [if_pos hs] at h
    obtain ⟨kv, hkv, heq⟩ := List.mem_map.mp h
    by_cases hk : kv.1 = k
    · rw [if_pos hk] at heq
      exact Or.inl heq.symm
    · rw [if_neg hk] at heq
      subst heq
      exact Or.inr ⟨hkv, hk⟩
  · rw [if_neg hs] at h
    rcases List.mem_append.mp h with h | h
    · refine Or.inr ⟨h, ?_⟩
      intro hk
      have := lookup_isSome_of_mem h
      rw [hk] at this
      rw [this] at hs
      exact hs rfl
    · exact Or.inl (by simpa using h)

lemma keys_dictSet (m : List (String × String)) (k v : String) :
    (dictSet m k v).map Prod.fst =
      if (m.lookup k).isSome then m.map Prod.fst else m.map Prod.fst ++ [k] := by
  unfold dictSet
  split
  · rw [List.map_map]
    refine List.map_congr_left ?_
    intro kv _
    by_cases hk : kv.1 = k
    · simp [hk]
    · simp [hk]
  · simp

lemma nodup_keys_dictSet {m : List (String × String)} {k v : String}
    (h : (m.map Prod.fst).Nodup) : ((dictSet m k v).map Prod.fst).Nodup := by
  rw [keys_dictSet]
  split
  · exact h
  · rename_i hs
    have hs2 : (m.lookup k).isSome = false := by rwa [Bool.not_eq_true] at hs
    have hk : k ∉ m.map Prod.fst := not_mem_keys_of_lookup_none hs2
    simp [List.nodup_append, h, hk]

/-! ## Helper lemmas: the profile rewritten by a scan -/

lemma keys_updProfile_nodup {gen : Nat → String} :
    ∀ (files : List FileEntry) (c : Nat) (m : List (String × String)),
      (m.map Prod.fst).Nodup → ((updProfile gen c files m).map Prod.fst).Nodup := by
  intro files
  induction files with
  | nil => intro c m h; simpa [updProfile] using h
  | cons f rest ih =>
    intro c m h
    exact ih (c + 1) (dictSet m f.path (gen c)) (nodup_keys_dictSet h)

lemma mem_updProfile {gen : Nat → String} :
    ∀ {files : List FileEntry} {c : Nat} {m : List (String × String)}
      {pu : String × String}, pu ∈ updProfile gen c files m →
      (pu ∈ m ∧ pu.1 ∉ files.map FileEntry.path) ∨
        ∃ i, ∃ hi : i < files.length,
          pu.1 = (files.get ⟨i, hi⟩).path ∧ pu.2 = gen (c + i) := by
  intro files
  induction files with
  | nil =>
    intro c m pu h
    exact Or.inl ⟨by simpa [updProfile] using h, by simp⟩
  | cons f rest ih =>
    intro c m pu h
    rcases ih (c := c + 1) (m := dictSet m f.path (gen c)) h with ⟨hm, hnp⟩ | ⟨i, hi, hp, hv⟩
    · rcases mem_dictSet hm with he | ⟨hm2, hne⟩
      · refine Or.inr ⟨0, by simp, ?_, ?_⟩
        · rw [he]; simp
        · rw [he]; simp
      · refine Or.inl ⟨hm2, ?_⟩
        simp only [List.map_cons, List.mem_cons]
        rintro (h1 | h2)
        · exact hne h1
        · exact hnp h2
    · refine Or.inr ⟨i + 1, by simpa using Nat.succ_lt_succ hi, ?_, ?_⟩
      · simpa using hp
      · rw [hv]; congr 1; omega

lemma values_updProfile_nodup {gen : Nat → String}
    (hgen : Function.Injective gen)
    {files : List FileEntry} {c : Nat} {m : List (String × String)}
    (hkeys : (m.map Prod.fst).Nodup)
    (hcov : ∀ pu ∈ m, pu.1 ∈ files.map FileEntry.path) :
    ((updProfile gen c files m).map Prod.snd).Nodup := by
  have hk2 := @keys_updProfile_nodup gen files c m hkeys
  have hentries : (updProfile gen c files m).Nodup := hk2.of_map _
  refine hentries.map_on ?_
  intro x hx y hy hxy
  rcases mem_updProfile hx with ⟨hxm, hxnp⟩ | ⟨i, hi, hxp, hxv⟩
  · exact absurd (hcov x hxm) hxnp
  rcases mem_updProfile hy with ⟨hym, hynp⟩ | ⟨j, hj, hyp, hyv⟩
  · exact absurd (hcov y hym) hynp
  have hij : i = j := by
    have : c + i = c + j := hgen (by rw [← hxv, ← hyv, hxy])
    omega
  subst hij
  have h1 : x.1 = y.1 := by rw [hxp, hyp]
  exact Prod.ext h1 hxy

lemma values_updProfile_fresh {gen : Nat → String}
    {files : List FileEntry} {c : Nat} {m : List (String × String)}
    (hcov : ∀ pu ∈ m, pu.1 ∈ files.map FileEntry.path)
    {pu : String × String} (h : pu ∈ updProfile gen c files m) :
    ∃ i, i < files.length ∧ pu.2 = gen (c + i) := by
  rcases mem_updProfile h with ⟨hm, hnp⟩ | ⟨i, hi, _, hv⟩
  · exact absurd (hcov pu hm) hnp
  · exact ⟨i, hi, hv⟩

/-! ## Helper lemmas: the scan loop -/

lemma map_uuid_newRows {gen : Nat → String} {now : Nat} :
    ∀ (files : List FileEntry) (c : Nat),
      (newRows gen now c files).map Row.uuid = genRange gen c files.length := by
  intro files
  induction files with
  | nil => intro c; simp [newRows, genRange]
  | cons f rest ih => intro c; simp [newRows, genRange, ih (c + 1)]

lemma map_fst_newVecs {gen : Nat → String} :
    ∀ (files : List FileEntry) (c : Nat),
      (newVecs gen c files).map Prod.fst = genRange gen c files.length := by
  intro files
  induction files with
  | nil => intro c; simp [newVecs, genRange]
  | cons f rest ih => intro c; simp [newVecs, genRange, ih (c + 1)]

lemma scanLoop_frame {gen : Nat → String} {now : Nat} {cancel : Nat → Bool} :
    ∀ (files : List FileEntry) (n : Nat) (s : LibState),
      ((scanLoop gen now cancel files n s).1).loaded = s.loaded ∧
      ((scanLoop gen now cancel files n s).1).embedderSet = s.embedderSet ∧
      ((scanLoop gen now cancel files n s).1).localMode = s.localMode ∧
      ((scanLoop gen now cancel files n s).1).savedProfile = s.savedProfile ∧
      ((scanLoop gen now cancel files n s).1).lastScanned = s.lastScanned ∧
      ((scanLoop gen now cancel files n s).1).savedLastScanned = s.savedLastScanned := by
  intro files
  induction files with
  | nil => intro n s; simp [scanLoop]
  | cons f rest ih =>
    intro n s
    by_cases hv : f.valid
    · by_cases hc : cancel n
      · simp [scanLoop, hv, hc]
      · by_cases he : f.emb = []
        · simp [scanLoop, hv, hc, he]
        · have := ih (n + 1) (writeEmbeddingEntry gen now s f.path f.emb)
          simpa [scanLoop, hv, hc, he, writeEmbeddingEntry] using this
    · simpa [scanLoop, hv] using ih n s

lemma scanLoop_ok {gen : Nat → String} {now : Nat} {cancel : Nat → Bool}
    (hC : ∀ n, cancel n = false) :
    ∀ (files : List FileEntry), (∀ f ∈ files, f.valid = true) →
      (∀ f ∈ files, f.emb ≠ []) → ∀ (n : Nat) (s : LibState),
      scanLoop gen now cancel files n s =
        ({ s with table := s.table ++ newRows gen now s.ctr files,
                  vdb := s.vdb ++ newVecs gen s.ctr files,
                  profile := updProfile gen s.ctr files s.profile,
                  ctr := s.ctr + files.length }, none) := by
  intro files
  induction files with
  | nil => intro _ _ n s; simp [scanLoop, newRows, newVecs, updProfile]
  | cons f rest ih =>
    intro hv he n s
    have hvf : f.valid = true := hv f (List.mem_cons_self f rest)
    have hef : f.emb ≠ [] := he f (List.mem_cons_self f rest)
    have hcn : ¬(cancel n = true) := by simp [hC n]
    rw [scanLoop, if_pos hvf, if_neg hcn, if_neg hef,
      ih (fun g hg => hv g (List.mem_cons_of_mem f hg))
        (fun g hg => he g (List.mem_cons_of_mem f hg)) (n + 1)
        (writeEmbeddingEntry gen now s f.path f.emb)]
    simp only [writeEmbeddingEntry, newRows, newVecs, updProfile, Prod.mk.injEq,
      LibState.mk.injEq, List.length_cons, List.append_assoc, List.singleton_append,
      eq_self_iff_true, true_and, and_true]
    omega

/-! ## Helper lemmas: the removal loop -/

lemma contains_iff_mem {l : List String} {a : String} :
    l.contains a = true ↔ a ∈ l := by
  simp [List.contains_eq_any_beq, List.any_eq_true, eq_comm]

lemma lookup_eq_some_mem :
    ∀ {m : List (String × String)} {k v : String}, m.lookup k = some v →
      (k, v) ∈ m := by
  intro m
  induction m with
  | nil => intro k v h; simp [List.lookup] at h
  | cons kv rest ih =>
    intro k v h
    obtain ⟨a, b⟩ := kv
    rw [List.lookup_cons] at h
    by_cases hk : k == a
    · simp only [hk] at h
      obtain rfl : b = v := by simpa using h
      have : k = a := by simpa using hk
      subst this
      exact List.mem_cons_self _ _
    · simp only [Bool.not_eq_true] at hk
      rw [hk] at h
      exact List.mem_cons_of_mem _ (ih h)

lemma keys_ne_of_lookup_none {m : List (String × String)} {k : String}
    (h : m.lookup k = none) : ∀ pu ∈ m, pu.1 ≠ k := by
  intro pu hpu hk
  have := lookup_isSome_of_mem hpu
  rw [hk, h] at this
  exact Bool.false_ne_true this

lemma eraseP_key_eq_filter :
    ∀ {m : List (String × String)} {q : String}, (m.map Prod.fst).Nodup →
      m.eraseP (fun kv => kv.1 == q) = m.filter (fun kv => !(kv.1 == q)) := by
  intro m
  induction m with
  | nil => intro q _; rfl
  | cons kv rest ih =>
    intro q hnd
    have hnd2 : (rest.map Prod.fst).Nodup := (List.nodup_cons.mp (by simpa using hnd)).2
    by_cases hk : (kv.1 == q) = true
    · have hkq : kv.1 = q := by simpa using hk
      have hknot : kv.1 ∉ rest.map Prod.fst := (List.nodup_cons.mp (by simpa using hnd)).1
      have he1 : List.eraseP (fun kv => kv.1 == q) (kv :: rest) = rest :=
        List.eraseP_cons_of_pos hk
      have he2 : List.filter (fun kv => !(kv.1 == q)) (kv :: rest) =
          List.filter (fun kv => !(kv.1 == q)) rest :=
        List.filter_cons_of_neg (by simp [hk])
      have he3 : List.filter (fun kv => !(kv.1 == q)) rest = rest := by
        refine List.filter_eq_self.mpr ?_
        intro pu hpu
        have : pu.1 ≠ q := by
          intro he
          exact hknot (by
            rw [hkq, ← he]
            exact List.mem_map_of_mem Prod.fst hpu)
        simp [this]
      rw [he1, he2, he3]
    · have he1 : List.eraseP (fun kv => kv.1 == q) (kv :: rest) =
          kv :: List.eraseP (fun kv => kv.1 == q) rest :=
        List.eraseP_cons_of_neg hk
      have he2 : List.filter (fun kv => !(kv.1 == q)) (kv :: rest) =
          kv :: List.filter (fun kv => !(kv.1 == q)) rest :=
        List.filter_cons_of_pos (by simp [hk])
      rw [he1, he2, ih hnd2]

lemma uuidRemoved_iff {P : List (String × String)} {R : List String}
    {u : String} :
    uuidRemoved P R u = true ↔ ∃ pu ∈ P, pu.1 ∈ R ∧ pu.2 = u := by
  simp only [uuidRemoved, List.any_eq_true, Bool.and_eq_true, beq_iff_eq]
  constructor
  · rintro ⟨pu, hpu, hc, hv⟩
    exact ⟨pu, hpu, contains_iff_mem.mp hc, hv⟩
  · rintro ⟨pu, hpu, hc, hv⟩
    exact ⟨pu, hpu, contains_iff_mem.mpr hc, hv⟩

lemma uuidRemoved_cons_not_key {P : List (String × String)} {q : String}
    {R : List String} {u : String} (hq : ∀ pu ∈ P, pu.1 ≠ q) :
    uuidRemoved P (q :: R) u = uuidRemoved P R u := by
  refine Bool.eq_iff_iff.mpr ?_
  rw [uuidRemoved_iff, uuidRemoved_iff]
  constructor
  · rintro ⟨pu, hpu, hc, hv⟩
    rcases List.mem_cons.mp hc with hc | hc
    · exact absurd hc (hq pu hpu)
    · exact ⟨pu, hpu, hc, hv⟩
  · rintro ⟨pu, hpu, hc, hv⟩
    exact ⟨pu, hpu, List.mem_cons_of_mem _ hc, hv⟩

lemma uuidRemoved_cons_key {P : List (String × String)} {q u : String}
    (hnd : (P.map Prod.fst).Nodup) (hl : P.lookup q = some u)
    (R : List String) (x : String) :
    uuidRemoved P (q :: R) x =
      ((x == u) || uuidRemoved (P.filter (fun pu => !(pu.1 == q))) R x) := by
  have hqu : (q, u) ∈ P := lookup_eq_some_mem hl
  refine Bool.eq_iff_iff.mpr ?_
  rw [uuidRemoved_iff]
  simp only [Bool.or_eq_true, beq_iff_eq, uuidRemoved_iff]
  constructor
  · rintro ⟨pu, hpu, hc, hv⟩
    by_cases hkey : pu.1 = q
    · have : pu = (q, u) :=
        List.inj_on_of_nodup_map hnd hpu hqu (by simpa using hkey)
      subst this
      exact Or.inl (by simpa using hv.symm)
    · rcases List.mem_cons.mp hc with hc | hc
      · exact absurd hc hkey
      · exact Or.inr ⟨pu, List.mem_filter.mpr ⟨hpu, by simp [hkey]⟩, hc, hv⟩
  · rintro (hxu | ⟨pu, hpu, hc, hv⟩)
    · exact ⟨(q, u), hqu, List.mem_cons_self _ _, hxu.symm⟩
    · have hpu2 := List.mem_filter.mp hpu
      exact ⟨pu, hpu2.1, List.mem_cons_of_mem _ hc, hv⟩

lemma removalKeys_nil : removalKeys [] = [] := rfl

lemma removalKeys_cons_empty {rest : List String} :
    removalKeys ("" :: rest) = removalKeys rest := by
  simp [removalKeys]

lemma removalKeys_cons {p : String} {rest : List String} (hp : p ≠ "") :
    removalKeys (p :: rest) = lstripSep p :: removalKeys rest := by
  simp [removalKeys, hp]

lemma removeOne_of_lookup_none {s : LibState} {p : String} (hp : p ≠ "")
    (hl : s.profile.lookup (lstripSep p) = none) : removeOne s p = s := by
  simp only [removeOne, if_neg hp]
  rw [hl]

lemma removeOne_of_lookup_some {s : LibState} {p u : String} (hp : p ≠ "")
    (hl : s.profile.lookup (lstripSep p) = some u) :
    removeOne s p =
      { s with
        vdb := s.vdb.filter (fun kv => !(kv.1 == u)),
        table := s.table.filter (fun r => !(r.uuid == u)),
        profile := s.profile.eraseP (fun kv => kv.1 == lstripSep p) } := by
  simp only [removeOne, if_neg hp]
  rw [hl]

lemma removeFold_frame :
    ∀ (paths : List String) (s : LibState),
      ((paths.foldl removeOne s).loaded = s.loaded) ∧
      ((paths.foldl removeOne s).embedderSet = s.embedderSet) ∧
      ((paths.foldl removeOne s).localMode = s.localMode) ∧
      ((paths.foldl removeOne s).savedProfile = s.savedProfile) ∧
      ((paths.foldl removeOne s).lastScanned = s.lastScanned) ∧
      ((paths.foldl removeOne s).savedLastScanned = s.savedLastScanned) ∧
      ((paths.foldl removeOne s).ctr = s.ctr) := by
  intro paths
  induction paths with
  | nil => intro s; simp
  | cons p rest ih =>
    intro s
    rw [List.foldl_cons]
    have hone : (removeOne s p).loaded = s.loaded ∧
        (removeOne s p).embedderSet = s.embedderSet ∧
        (removeOne s p).localMode = s.localMode ∧
        (removeOne s p).savedProfile = s.savedProfile ∧
        (removeOne s p).lastScanned = s.lastScanned ∧
        (removeOne s p).savedLastScanned = s.savedLastScanned ∧
        (removeOne s p).ctr = s.ctr := by
      by_cases hp : p = ""
      · simp [removeOne, hp]
      · rcases hl : s.profile.lookup (lstripSep p) with _ | u
        · rw [removeOne_of_lookup_none hp hl]
          simp
        · rw [removeOne_of_lookup_some hp hl]
          simp
    obtain ⟨h1, h2, h3, h4, h5, h6, h7⟩ := hone
    obtain ⟨g1, g2, g3, g4, g5, g6, g7⟩ := ih (removeOne s p)
    exact ⟨g1.trans h1, g2.trans h2, g3.trans h3, g4.trans h4, g5.trans h5,
      g6.trans h6, g7.trans h7⟩

lemma removeFold_profile :
    ∀ (paths : List String) (s : LibState), (s.profile.map Prod.fst).Nodup →
      (paths.foldl removeOne s).profile =
        s.profile.filter (fun pu => !((removalKeys paths).contains pu.1)) := by
  intro paths
  induction paths with
  | nil =>
    intro s _
    rw [List.foldl_nil, removalKeys_nil]
    exact (List.filter_eq_self.mpr (fun pu _ => by simp)).symm
  | cons p rest ih =>
    intro s hnd
    rw [List.foldl_cons]
    by_cases hp : p = ""
    · subst hp
      have hro : removeOne s "" = s := by simp [removeOne]
      rw [hro, ih s hnd, removalKeys_cons_empty]
    · rw [removalKeys_cons hp]
      rcases hl : s.profile.lookup (lstripSep p) with _ | u
      · have hq : ∀ pu ∈ s.profile, pu.1 ≠ lstripSep p :=
          keys_ne_of_lookup_none hl
        rw [removeOne_of_lookup_none hp hl, ih s hnd]
        refine List.filter_congr ?_
        intro pu hpu
        have hne : (pu.1 == lstripSep p) = false := by simp [hq pu hpu]
        rw [List.contains_cons, hne, Bool.false_or]
      · have hep := eraseP_key_eq_filter (q := lstripSep p) hnd
        have hnd2 : (((removeOne s p).profile).map Prod.fst).Nodup := by
          rw [removeOne_of_lookup_some hp hl]
          exact ((List.eraseP_sublist s.profile).map Prod.fst).nodup hnd
        rw [ih _ hnd2, removeOne_of_lookup_some hp hl]
        simp only [hep, List.filter_filter]
        refine List.filter_congr ?_
        intro pu _
        rw [List.contains_cons, Bool.not_or, Bool.and_comm]

lemma removeFold_table :
    ∀ (paths : List String) (s : LibState), (s.profile.map Prod.fst).Nodup →
      (paths.foldl removeOne s).table =
        s.table.filter
          (fun r => !(uuidRemoved s.profile (removalKeys paths) r.uuid)) := by
  intro paths
  induction paths with
  | nil =>
    intro s _
    rw [List.foldl_nil, removalKeys_nil]
    exact (List.filter_eq_self.mpr (fun r _ => by simp [uuidRemoved])).symm
  | cons p rest ih =>
    intro s hnd
    rw [List.foldl_cons]
    by_cases hp : p = ""
    · subst hp
      have hro : removeOne s "" = s := by simp [removeOne]
      rw [hro, ih s hnd, removalKeys_cons_empty]
    · rw [removalKeys_cons hp]
      rcases hl : s.profile.lookup (lstripSep p) with _ | u
      · have hq : ∀ pu ∈ s.profile, pu.1 ≠ lstripSep p :=
          keys_ne_of_lookup_none hl
        rw [removeOne_of_lookup_none hp hl, ih s hnd]
        refine List.filter_congr ?_
        intro r _
        rw [uuidRemoved_cons_not_key hq]
      · have hep := eraseP_key_eq_filter (q := lstripSep p) hnd
        have hnd2 : (((removeOne s p).profile).map Prod.fst).Nodup := by
          rw [removeOne_of_lookup_some hp hl]
          exact ((List.eraseP_sublist s.profile).map Prod.fst).nodup hnd
        rw [ih _ hnd2, removeOne_of_lookup_some hp hl]
        simp only [hep, List.filter_filter]
        refine List.filter_congr ?_
        intro r _
        rw [uuidRemoved_cons_key hnd hl (removalKeys rest) r.uuid,
          Bool.not_or, Bool.and_comm]

lemma removeFold_vdb :
    ∀ (paths : List String) (s : LibState), (s.profile.map Prod.fst).Nodup →
      (paths.foldl removeOne s).vdb =
        s.vdb.filter
          (fun kv => !(uuidRemoved s.profile (removalKeys paths) kv.1)) := by
  intro paths
  induction paths with
  | nil =>
    intro s _
    rw [List.foldl_nil, removalKeys_nil]
    exact (List.filter_eq_self.mpr (fun r _ => by simp [uuidRemoved])).symm
  | cons p rest ih =>
    intro s hnd
    rw [List.foldl_cons]
    by_cases hp : p = ""
    · subst hp
      have hro : removeOne s "" = s := by simp [removeOne]
      rw [hro, ih s hnd, removalKeys_cons_empty]
    · rw [removalKeys_cons hp]
      rcases hl : s.profile.lookup (lstripSep p) with _ | u
      · have hq : ∀ pu ∈ s.profile, pu.1 ≠ lstripSep p :=
          keys_ne_of_lookup_none hl
        rw [removeOne_of_lookup_none hp hl, ih s hnd]
        refine List.filter_congr ?_
        intro kv _
        rw [uuidRemoved_cons_not_key hq]
      · have hep := eraseP_key_eq_filter (q := lstripSep p) hnd
        have hnd2 : (((removeOne s p).profile).map Prod.fst).Nodup := by
          rw [removeOne_of_lookup_some hp hl]
          exact ((List.eraseP_sublist s.profile).map Prod.fst).nodup hnd
        rw [ih _ hnd2, removeOne_of_lookup_some hp hl]
        simp only [hep, List.filter_filter]
        refine List.filter_congr ?_
        intro kv _
        rw [uuidRemoved_cons_key hnd hl (removalKeys rest) kv.1,
          Bool.not_or, Bool.and_comm]

/-! ## Helper lemmas: invariant preservation -/

lemma countP_rows_uuid (rows : List Row) (x : String) :
    rows.countP (fun r => r.uuid == x) =
      (rows.map Row.uuid).countP (fun u => u == x) := by
  rw [List.countP_map]
  rfl

lemma countP_vecs_fst (vecs : List (String × List Int)) (x : String) :
    vecs.countP (fun kv => kv.1 == x) =
      (vecs.map Prod.fst).countP (fun u => u == x) := by
  rw [List.countP_map]
  rfl

lemma inv_after_scan {gen : Nat → String} (hgen : Function.Injective gen)
    {now c : Nat} {files : List FileEntry} {P : List (String × String)}
    (hk : (P.map Prod.fst).Nodup)
    (hcov : ∀ pu ∈ P, pu.1 ∈ files.map FileEntry.path) :
    ∀ (s : LibState), s.table = newRows gen now c files →
      s.vdb = newVecs gen c files → s.profile = updProfile gen c files P →
      s.ctr = c + files.length → Inv gen s := by
  intro s htab hvdb hprof hctr
  refine ⟨⟨?_, ?_, ?_⟩, ?_⟩
  · rw [hprof]
    exact keys_updProfile_nodup files c P hk
  · rw [hprof]
    exact values_updProfile_nodup hgen hk hcov
  · intro pu hpu
    rw [hprof] at hpu
    obtain ⟨i, hi, hval⟩ := values_updProfile_fresh hcov hpu
    constructor
    · rw [htab, hval, countP_rows_uuid, map_uuid_newRows]
      exact countP_genRange_one hgen hi
    · rw [hvdb, hval, countP_vecs_fst, map_fst_newVecs]
      exact countP_genRange_one hgen hi
  · intro n hn
    rw [hctr] at hn
    refine ⟨?_, ?_, ?_⟩
    · intro pu hpu
      rw [hprof] at hpu
      obtain ⟨i, hi, hval⟩ := values_updProfile_fresh hcov hpu
      rw [hval]
      intro h
      have := hgen h
      omega
    · intro r hr
      rw [htab] at hr
      have : r.uuid ∈ (newRows gen now c files).map Row.uuid :=
        List.mem_map_of_mem Row.uuid hr
      rw [map_uuid_newRows] at this
      obtain ⟨i, hi, hu⟩ := mem_genRange this
      rw [hu]
      intro h
      have := hgen h
      omega
    · intro kv hkv
      rw [hvdb] at hkv
      have : kv.1 ∈ (newVecs gen c files).map Prod.fst :=
        List.mem_map_of_mem Prod.fst hkv
      rw [map_fst_newVecs] at this
      obtain ⟨i, hi, hu⟩ := mem_genRange this
      rw [hu]
      intro h
      have := hgen h
      omega

lemma removeEmbeddings_inv {gen : Nat → String} {s : LibState}
    {paths : List String} (hs : Inv gen s) :
    Inv gen (removeEmbeddings s paths).1 := by
  unfold removeEmbeddings
  split
  · exact hs
  · split
    · exact hs
    · obtain ⟨⟨hk, hv, hcnt⟩, hfresh⟩ := hs
      have hprof := removeFold_profile paths s hk
      have htab := removeFold_table paths s hk
      have hvdb := removeFold_vdb paths s hk
      have hframe := removeFold_frame paths s
      refine ⟨⟨?_, ?_, ?_⟩, ?_⟩
      · show (((paths.foldl removeOne s).profile).map Prod.fst).Nodup
        rw [hprof]
        exact ((List.filter_sublist s.profile).map Prod.fst).nodup hk
      · show (((paths.foldl removeOne s).profile).map Prod.snd).Nodup
        rw [hprof]
        exact ((List.filter_sublist s.profile).map Prod.snd).nodup hv
      · intro pu hpu
        have hpu2 : pu ∈ (paths.foldl removeOne s).profile := hpu
        rw [hprof] at hpu2
        obtain ⟨hmem, hkeep⟩ := List.mem_filter.mp hpu2
        have hkeep2 : pu.1 ∉ removalKeys paths := by
          intro hmm
          rw [contains_iff_mem.mpr hmm] at hkeep
          simp at hkeep
        have hnotrem : uuidRemoved s.profile (removalKeys paths) pu.2 = false := by
          rcases hq : uuidRemoved s.profile (removalKeys paths) pu.2 with _ | _
          · rfl
          · obtain ⟨pu2, hpu2m, hpu2k, hpu2v⟩ := uuidRemoved_iff.mp hq
            have : pu2 = pu := List.inj_on_of_nodup_map hv hpu2m hmem hpu2v
            subst this
            exact absurd hpu2k hkeep2
        constructor
        · show ((paths.foldl removeOne s).table).countP (fun r => r.uuid == pu.2) = 1
          rw [htab, List.countP_filter]
          rw [List.countP_congr (fun r _ => ?_)]
          · exact (hcnt pu hmem).1
          · constructor
            · intro hx
              exact (Bool.and_eq_true _ _).mp hx |>.1
            · intro hx
              have hne : r.uuid = pu.2 := by simpa using hx
              rw [hx]
              simp [hne, hnotrem]
        · show ((paths.foldl removeOne s).vdb).countP (fun kv => kv.1 == pu.2) = 1
          rw [hvdb, List.countP_filter]
          rw [List.countP_congr (fun kv _ => ?_)]
          · exact (hcnt pu hmem).2
          · constructor
            · intro hx
              exact (Bool.and_eq_true _ _).mp hx |>.1
            · intro hx
              have hne : kv.1 = pu.2 := by simpa using hx
              rw [hx]
              simp [hne, hnotrem]
      · intro n hn
        have hctr : (paths.foldl removeOne s).ctr = s.ctr := hframe.2.2.2.2.2.2
        have hn2 : s.ctr ≤ n := by
          have : (paths.foldl removeOne s).ctr ≤ n := hn
          rw [hctr] at this
          exact this
        obtain ⟨hfp, hft, hfv⟩ := hfresh n hn2
        refine ⟨?_, ?_, ?_⟩
        · intro pu hpu
          have hpu2 : pu ∈ (paths.foldl removeOne s).profile := hpu
          rw [hprof] at hpu2
          exact hfp pu (List.mem_filter.mp hpu2).1
        · intro r hr
          have hr2 : r ∈ (paths.foldl removeOne s).table := hr
          rw [htab] at hr2
          exact hft r (List.mem_filter.mp hr2).1
        · intro kv hkv
          have hkv2 : kv ∈ (paths.foldl removeOne s).vdb := hkv
          rw [hvdb] at hkv2
          exact hfv kv (List.mem_filter.mp hkv2).1

lemma deleteFiles_inv {gen : Nat → String} {s : LibState}
    {paths : List String} (hs : Inv gen s) :
    Inv gen (deleteFiles s paths).1 := by
  unfold deleteFiles
  split
  · exact hs
  · exact removeEmbeddings_inv hs

lemma embedderSet_of_guards {s : LibState}
    (h2 : ¬((!lib_is_ready s && !s.embedderSet) = true)) :
    s.embedderSet = true := by
  rcases hE : s.embedderSet with _ | _
  · exfalso
    apply h2
    have hLR : lib_is_ready s = false := by
      rcases hL : lib_is_ready s with _ | _
      · rfl
      · exfalso
        have := ((Bool.and_eq_true _ _).mp (by rwa [lib_is_ready] at hL)).2
        rw [hE] at this
        exact Bool.false_ne_true this
    simp [hLR, hE]
  · rfl

lemma initializeLib_inv {gen : Nat → String} (hgen : Function.Injective gen)
    {now : Nat} {files : List FileEntry} {cancel : Nat → Bool}
    {extLocked force : Bool} {s : LibState}
    (hs : Inv gen s) (hc : ∀ n, cancel n = false)
    (hv : ∀ f ∈ files, f.valid = true) (he : ∀ f ∈ files, f.emb ≠ [])
    (hcov : ∀ pu ∈ s.profile, pu.1 ∈ files.map FileEntry.path)
    (hok : (initializeLib gen now files cancel extLocked force s).2 = none) :
    Inv gen (initializeLib gen now files cancel extLocked force s).1 := by
  by_cases h1 : (lib_is_ready s && !force) = true
  · have heq : initializeLib gen now files cancel extLocked force s = (s, none) := by
      unfold initializeLib
      rw [if_pos h1]
    rw [heq]
    exact hs
  · by_cases h2 : (!lib_is_ready s && !s.embedderSet) = true
    · have heq : initializeLib gen now files cancel extLocked force s =
          (s, some .libraryError) := by
        unfold initializeLib
        rw [if_neg h1, if_pos h2]
      rw [heq] at hok
      simp at hok
    · have hemb : s.embedderSet = true := embedderSet_of_guards h2
      by_cases hr : lib_is_ready s = true
      · -- the library was already fully loaded: `s1 = s`, and `force` is true
        have hforce : force = true := by
          rcases hF : force with _ | _
          · exact absurd (by simp [hr, hF]) h1
          · rfl
        by_cases hL : extLocked = true
        · have heq : (initializeLib gen now files cancel extLocked force s).2 =
              some .lockFailure := by
            simp only [initializeLib, hr, hforce, hL, Bool.not_true,
              Bool.not_false, Bool.false_and, Bool.true_and, Bool.and_false,
              Bool.and_true, Bool.false_eq_true, if_true, if_false]
          rw [heq] at hok
          simp at hok
        · have hLf : extLocked = false := by
            rcases hb : extLocked with _ | _
            · rfl
            · exact absurd hb hL
          have hscan := @scanLoop_ok gen now cancel hc files hv he 0
            { s with table := [], vdb := [],
                     lastScanned := now, savedLastScanned := now }
          have heq : initializeLib gen now files cancel extLocked force s =
              ({ s with table := newRows gen now s.ctr files,
                        vdb := newVecs gen s.ctr files,
                        profile := updProfile gen s.ctr files s.profile,
                        savedProfile := updProfile gen s.ctr files s.profile,
                        lastScanned := now, savedLastScanned := now,
                        ctr := s.ctr + files.length }, none) := by
            simp only [initializeLib, scanAndInit, hr, hforce, hLf, hscan,
              Bool.not_true, Bool.not_false, Bool.false_and, Bool.true_and,
              Bool.and_false, Bool.and_true, Bool.false_eq_true, if_true,
              if_false, List.nil_append]
          rw [heq]
          exact inv_after_scan hgen hs.1.1 hcov _ rfl rfl rfl rfl
      · -- the library was not loaded yet: `s1 = { s with loaded := true }`
        have hrf : lib_is_ready s = false := by
          rcases hb : lib_is_ready s with _ | _
          · rfl
          · exact absurd hb hr
        have hr2 : lib_is_ready { s with loaded := true } = true := by
          simp [lib_is_ready, hemb]
        have hembf : (!s.embedderSet) = false := by
          rw [hemb]
          rfl
        by_cases h3 : (!force && decide (0 < s.table.length) && !s.vdb.isEmpty) = true
        · have heq : initializeLib gen now files cancel extLocked force s =
              ({ s with loaded := true }, none) := by
            simp only [initializeLib, hrf, h3, Bool.not_true, Bool.not_false,
              Bool.false_and, Bool.true_and, Bool.and_false, Bool.and_true,
              Bool.false_eq_true, if_true, if_false, hembf]
          rw [heq]
          exact hs
        · have h3f : (!force && decide (0 < s.table.length) && !s.vdb.isEmpty) = false := by
            rcases hb : (!force && decide (0 < s.table.length) && !s.vdb.isEmpty) with _ | _
            · rfl
            · exact absurd hb h3
          by_cases hL : extLocked = true
          · have heq : (initializeLib gen now files cancel extLocked force s).2 =
                some .lockFailure := by
              simp only [initializeLib, hrf, h3f, hr2, hL, Bool.not_true,
                Bool.not_false, Bool.false_and, Bool.true_and, Bool.and_false,
                Bool.and_true, Bool.false_eq_true, if_true, if_false, hembf]
            rw [heq] at hok
            simp at hok
          · have hLf : extLocked = false := by
              rcases hb : extLocked with _ | _
              · rfl
              · exact absurd hb hL
            have hscan := @scanLoop_ok gen now cancel hc files hv he 0
              { s with loaded := true, table := [], vdb := [],
                       lastScanned := now, savedLastScanned := now }
            have heq : initializeLib gen now files cancel extLocked force s =
                ({ s with loaded := true, table := newRows gen now s.ctr files,
                          vdb := newVecs gen s.ctr files,
                          profile := updProfile gen s.ctr files s.profile,
                          savedProfile := updProfile gen s.ctr files s.profile,
                          lastScanned := now, savedLastScanned := now,
                          ctr := s.ctr + files.length }, none) := by
              simp only [initializeLib, scanAndInit, hrf, h3f, hr2, hLf, hscan,
                Bool.not_true, Bool.not_false, Bool.false_and, Bool.true_and,
                Bool.and_false, Bool.and_true, Bool.false_eq_true, if_true,
                if_false, hembf, List.nil_append]
            rw [heq]
            exact inv_after_scan hgen hs.1.1 hcov _ rfl rfl rfl rfl

lemma incrementalInitialization_inv {gen : Nat → String}
    (hgen : Function.Injective gen) {now : Nat} {files : List FileEntry}
    {cancel : Nat → Bool} {extLocked : Bool} {s : LibState}
    (hs : Inv gen s) (hc : ∀ n, cancel n = false)
    (hv : ∀ f ∈ files, f.valid = true) (he : ∀ f ∈ files, f.emb ≠ [])
    (hok : (incrementalInitialization gen now files cancel extLocked s).2 = none) :
    Inv gen (incrementalInitialization gen now files cancel extLocked s).1 := by
  by_cases hp : s.profile.isEmpty = true
  · have hpe : s.profile = [] := by
      rwa [List.isEmpty_iff] at hp
    have heq : incrementalInitialization gen now files cancel extLocked s =
        initializeLib gen now files cancel extLocked true s := by
      unfold incrementalInitialization
      rw [if_pos hp]
    rw [heq] at hok ⊢
    exact initializeLib_inv hgen hs hc hv he
      (fun pu hpu => absurd (hpe ▸ hpu) (List.not_mem_nil pu)) hok
  · have heq : incrementalInitialization gen now files cancel extLocked s =
        (if !lib_is_ready s && !s.embedderSet then (s, some .libraryError)
         else (if lib_is_ready s then s else { s with loaded := true }, none)) := by
      unfold incrementalInitialization
      rw [if_neg hp]
    rw [heq]
    split
    · exact hs
    · split
      · exact hs
      · exact hs

/-! ## Helper lemmas: reaching the scan under a forced run -/

lemma loaded_of_ready {s : LibState} (hr : lib_is_ready s = true) :
    s.loaded = true :=
  ((Bool.and_eq_true _ _).mp (by rwa [lib_is_ready] at hr)).1

lemma ready_of_not_ready_load {s : LibState} (hemb : s.embedderSet = true) :
    lib_is_ready { s with loaded := true } = true := by
  simp [lib_is_ready, hemb]

lemma initializeLib_forced_eq {gen : Nat → String} {now : Nat}
    {files : List FileEntry} {cancel : Nat → Bool} {s : LibState}
    (hemb : s.embedderSet = true) :
    initializeLib gen now files cancel false true s =
      (match scanLoop gen now cancel files 0
          { s with loaded := true, table := [], vdb := [],
                   lastScanned := now, savedLastScanned := now } with
       | (s4, none) => ({ s4 with savedProfile := s4.profile }, none)
       | (s4, some .cancelled) => ({ s4 with table := [], vdb := [] }, none)
       | (s4, some e) => (s4, some e)) := by
  have hembf : (!s.embedderSet) = false := by
    rw [hemb]
    rfl
  by_cases hr : lib_is_ready s = true
  · have hld : s.loaded = true := loaded_of_ready hr
    have heq : initializeLib gen now files cancel false true s =
        (match scanLoop gen now cancel files 0
            { s with table := [], vdb := [],
                     lastScanned := now, savedLastScanned := now } with
         | (s4, none) => ({ s4 with savedProfile := s4.profile }, none)
         | (s4, some .cancelled) => ({ s4 with table := [], vdb := [] }, none)
         | (s4, some e) => (s4, some e)) := by
      simp only [initializeLib, scanAndInit, hr, Bool.not_true,
        Bool.not_false, Bool.false_and, Bool.true_and, Bool.and_false,
        Bool.and_true, Bool.false_eq_true, if_true, if_false]
      rcases scanLoop gen now cancel files 0
          { s with table := [], vdb := [],
                   lastScanned := now, savedLastScanned := now } with ⟨s4, e⟩
      rcases e with _ | e
      · rfl
      · rcases e <;> rfl
    rw [heq, hld]
  · have hrf : lib_is_ready s = false := by
      rcases hb : lib_is_ready s with _ | _
      · rfl
      · exact absurd hb hr
    have hr2 : lib_is_ready { s with loaded := true } = true :=
      ready_of_not_ready_load hemb
    simp only [initializeLib, scanAndInit, hrf, hr2, hembf, Bool.not_true,
      Bool.not_false, Bool.false_and, Bool.true_and, Bool.and_false,
      Bool.and_true, Bool.false_eq_true, if_true, if_false]
    rcases scanLoop gen now cancel files 0
        { s with loaded := true, table := [], vdb := [],
                 lastScanned := now, savedLastScanned := now } with ⟨s4, e⟩
    rcases e with _ | e
    · rfl
    · rcases e <;> rfl

lemma initializeLib_locked_eq {gen : Nat → String} {now : Nat}
    {files : List FileEntry} {cancel : Nat → Bool} {s : LibState}
    (hemb : s.embedderSet = true) :
    initializeLib gen now files cancel true true s =
      ({ s with loaded := true, table := [], vdb := [] },
        some .lockFailure) := by
  have hembf : (!s.embedderSet) = false := by
    rw [hemb]
    rfl
  by_cases hr : lib_is_ready s = true
  · have hld : s.loaded = true := loaded_of_ready hr
    have heq : initializeLib gen now files cancel true true s =
        ({ s with table := [], vdb := [] }, some .lockFailure) := by
      simp only [initializeLib, hr, Bool.not_true, Bool.not_false,
        Bool.false_and, Bool.true_and, Bool.and_false, Bool.and_true,
        Bool.false_eq_true, if_true, if_false]
    rw [heq, hld]
  · have hrf : lib_is_ready s = false := by
      rcases hb : lib_is_ready s with _ | _
      · rfl
      · exact absurd hb hr
    have hr2 : lib_is_ready { s with loaded := true } = true :=
      ready_of_not_ready_load hemb
    simp only [initializeLib, hrf, hr2, hembf, Bool.not_true, Bool.not_false,
      Bool.false_and, Bool.true_and, Bool.and_false, Bool.and_true,
      Bool.false_eq_true, if_true, if_false]

lemma incrementalInitialization_nonempty_eq {gen : Nat → String} {now : Nat}
    {files : List FileEntry} {cancel : Nat → Bool} {extLocked : Bool}
    {s : LibState} (hprof : s.profile ≠ []) (hemb : s.embedderSet = true) :
    incrementalInitialization gen now files cancel extLocked s =
      (if lib_is_ready s then s else { s with loaded := true }, none) := by
  have hpf : s.profile.isEmpty = false := by
    rcases hb : s.profile.isEmpty with _ | _
    · rfl
    · exact absurd (List.isEmpty_iff.mp hb) hprof
  have hg : (!lib_is_ready s && !s.embedderSet) = false := by
    rw [hemb]
    simp
  unfold incrementalInitialization
  rw [if_neg (by simp [hpf]), if_neg (by simp [hg])]

/-! ## Helper lemmas: the rerank stage -/

lemma map_getD_range {α : Type} :
    ∀ (l : List α) (d : α),
      (List.range l.length).map (fun i => l.getD i d) = l := by
  intro l
  induction l with
  | nil => intro d; simp
  | cons a rest ih =>
    intro d
    rw [List.length_cons, List.range_succ_eq_map, List.map_cons, List.map_map]
    have h1 : (a :: rest).getD 0 d = a := List.getD_cons_zero
    have h2 : ((fun i => (a :: rest).getD i d) ∘ Nat.succ) =
        (fun i => rest.getD i d) := by
      funext i
      simp [List.getD_cons_succ]
    rw [h1, h2, ih d]

lemma getD_map_lt {α β : Type} {l : List α} (f : α → β) {i : Nat}
    (h : i < l.length) (d : β) (d0 : α) :
    (l.map f).getD i d = f (l.getD i d0) := by
  rw [List.getD_eq_getElem?_getD, List.getElem?_map,
    List.getElem?_eq_getElem h, List.getD_eq_getElem?_getD,
    List.getElem?_eq_getElem h]
  rfl

lemma argsortAsc_reverse_perm (scores : List Int) :
    ((argsortAsc scores).reverse).Perm (List.range scores.length) :=
  (List.reverse_perm _).trans (List.perm_insertionSort _ _)

lemma rerankList_perm (score : String → String → Int) (text : String)
    (candidates : List String) :
    (rerankList score text candidates).Perm candidates := by
  unfold rerankList
  have hperm := argsortAsc_reverse_perm (candidates.map (score text))
  have hmap := hperm.map (fun i => candidates.getD i "")
  have hlen : (candidates.map (score text)).length = candidates.length :=
    List.length_map _ _
  rw [hlen] at hmap
  rw [map_getD_range candidates ""] at hmap
  exact hmap

lemma mem_argsortAsc_reverse {scores : List Int} {i : Nat}
    (h : i ∈ (argsortAsc scores).reverse) : i < scores.length := by
  have := (argsortAsc_reverse_perm scores).mem_iff.mp h
  exact List.mem_range.mp this

lemma argsortAsc_reverse_pairwise (scores : List Int) :
    ((argsortAsc scores).reverse).Pairwise
      (fun i j => ascLE scores j i) := by
  have hs := List.sorted_insertionSort (ascLE scores)
    (List.range scores.length)
  exact List.pairwise_reverse.mpr hs

lemma rerankList_sorted (score : String → String → Int) (text : String)
    (candidates : List String) :
    (rerankList score text candidates).Pairwise
      (fun a b => score text b ≤ score text a) := by
  unfold rerankList
  rw [List.pairwise_map]
  refine (argsortAsc_reverse_pairwise (candidates.map (score text))).imp_of_mem ?_
  intro i j hi hj hji
  have hi2 : i < candidates.length := by
    have := mem_argsortAsc_reverse hi
    rwa [List.length_map] at this
  have hj2 : j < candidates.length := by
    have := mem_argsortAsc_reverse hj
    rwa [List.length_map] at this
  have hgi : (candidates.map (score text)).getD i 0 =
      score text (candidates.getD i "") :=
    getD_map_lt (score text) hi2 0 ""
  have hgj : (candidates.map (score text)).getD j 0 =
      score text (candidates.getD j "") :=
    getD_map_lt (score text) hj2 0 ""
  rcases hji with hlt | ⟨heq, _⟩
  · rw [hgj, hgi] at hlt
    exact le_of_lt hlt
  · rw [hgj, hgi] at heq
    exact le_of_eq heq

lemma argsortAsc_reverse_ties (scores : List Int) :
    ((argsortAsc scores).reverse).Pairwise
      (fun i j => scores.getD i 0 = scores.getD j 0 → j ≤ i) := by
  refine (argsortAsc_reverse_pairwise scores).imp ?_
  intro i j hji heq
  rcases hji with hlt | ⟨_, hle⟩
  · rw [heq] at hlt
    exact absurd hlt (lt_irrefl _)
  · exact hle

lemma rerankList_nil (score : String → String → Int) (text : String) :
    rerankList score text [] = [] := rfl

lemma pySliceTo_nil {α : Type} (k : Int) : pySliceTo ([] : List α) k = [] := by
  unfold pySliceTo
  split <;> simp

/-! ## Helper lemmas: retrieve and query -/

lemma retrieve_uninit {r : DocEmbeddingRetriever} {text : String}
    {top_k : Int} (h : r.doc_provider = none ∨ r.index = none) :
    retrieve r text top_k = .error "Not initialized" := by
  unfold retrieve
  rcases h with h | h <;> rw [h]
  rcases hdp : r.doc_provider with _ | dp <;> rfl

lemma rerank_uninit {r : DocEmbeddingRetriever} {text : String}
    {candidates : List String} (h : r.doc_provider = none ∨ r.index = none) :
    rerank r text candidates = .error "Not initialized" := by
  unfold rerank
  rcases h with h | h <;> rw [h]
  rcases hdp : r.doc_provider with _ | dp <;> rfl

lemma query_uninit {r : DocEmbeddingRetriever} {text : String} {top_k : Int}
    (h : r.doc_provider = none ∨ r.index = none) :
    query r text top_k = .error "Not initialized" := by
  simp only [query, retrieve_uninit h]

lemma retrieve_guard {r : DocEmbeddingRetriever} {dp : Int → Option ChatRecord}
    {idx : List Int → Int → List Int} (hdp : r.doc_provider = some dp)
    (hidx : r.index = some idx) {text : String} {top_k : Int}
    (h : text = "" ∨ top_k ≤ 0) : retrieve r text top_k = .ok [] := by
  simp only [retrieve, hdp, hidx]
  rw [if_pos h]

lemma retrieve_run {r : DocEmbeddingRetriever} {dp : Int → Option ChatRecord}
    {idx : List Int → Int → List Int} (hdp : r.doc_provider = some dp)
    (hidx : r.index = some idx) {text : String} {top_k : Int}
    (h : ¬(text = "" ∨ top_k ≤ 0)) :
    retrieve r text top_k =
      .ok ((idx (r.transformerEncode text) top_k).filterMap
        (fun i => (dp i).map ChatRecord.message)) := by
  simp only [retrieve, hdp, hidx]
  rw [if_neg h]

lemma rerank_run {r : DocEmbeddingRetriever} {dp : Int → Option ChatRecord}
    {idx : List Int → Int → List Int} (hdp : r.doc_provider = some dp)
    (hidx : r.index = some idx) (text : String) (candidates : List String) :
    rerank r text candidates = .ok (rerankList r.rankerPredict text candidates) := by
  simp only [rerank, hdp, hidx]

lemma query_run {r : DocEmbeddingRetriever} {dp : Int → Option ChatRecord}
    {idx : List Int → Int → List Int} (hdp : r.doc_provider = some dp)
    (hidx : r.index = some idx) {text : String} {k : Int}
    (ht : text ≠ "") (hk : 0 < k) :
    query r text k =
      .ok (pySliceTo
        (rerankList r.rankerPredict text
          ((idx (r.transformerEncode text) (k * 20)).filterMap
            (fun i => (dp i).map ChatRecord.message))) k) := by
  have hguard : ¬(text = "" ∨ k * 20 ≤ 0) := by
    rintro (h | h)
    · exact ht h
    · omega
  simp only [query, retrieve_run hdp hidx hguard, List.filterMap_some,
    rerank_run hdp hidx]

lemma query_empty {r : DocEmbeddingRetriever} {dp : Int → Option ChatRecord}
    {idx : List Int → Int → List Int} (hdp : r.doc_provider = some dp)
    (hidx : r.index = some idx) (text : String) (k : Int)
    (h : text = "" ∨ k ≤ 0) : query r text k = .ok [] := by
  have hguard : text = "" ∨ k * 20 ≤ 0 := by
    rcases h with h | h
    · exact Or.inl h
    · exact Or.inr (by omega)
  simp only [query, retrieve_guard hdp hidx hguard, List.filterMap_some,
    rerank_run hdp hidx, rerankList_nil, pySliceTo_nil]

/-! ## Helper lemmas: progress reporting -/

lemma progressValues_mem {total : Nat} :
    ∀ (l : List Bool) (i : Nat) (prev : Int) {x : Nat},
      x ∈ progressValues total l i prev →
      prev < (x : Int) ∧ ∃ j, i ≤ j ∧ j < i + l.length ∧ x = j * 100 / total := by
  intro l
  induction l with
  | nil => intro i prev x h; simp [progressValues] at h
  | cons v rest ih =>
    intro i prev x h
    rcases v with _ | _
    · simp only [progressValues, if_false, Bool.false_eq_true] at h
      obtain ⟨h1, j, hj1, hj2, hj3⟩ := ih (i + 1) prev h
      exact ⟨h1, j, by omega, by simp [List.length_cons]; omega, hj3⟩
    · simp only [progressValues, if_true] at h
      by_cases hlt : prev < ((i * 100 / total : Nat) : Int)
      · rw [if_pos hlt] at h
        rcases List.mem_cons.mp h with h | h
        · subst h
          exact ⟨hlt, i, le_refl i, by simp, rfl⟩
        · obtain ⟨h1, j, hj1, hj2, hj3⟩ := ih (i + 1) _ h
          exact ⟨lt_trans hlt h1, j, by omega, by simp [List.length_cons]; omega, hj3⟩
      · rw [if_neg hlt] at h
        obtain ⟨h1, j, hj1, hj2, hj3⟩ := ih (i + 1) prev h
        exact ⟨h1, j, by omega, by simp [List.length_cons]; omega, hj3⟩

lemma progressValues_chain {total : Nat} :
    ∀ (l : List Bool) (i : Nat) (prev : Int),
      List.Chain' (fun a b : Nat => a < b) (progressValues total l i prev) := by
  intro l
  induction l with
  | nil => intro i prev; simp [progressValues]
  | cons v rest ih =>
    intro i prev
    rcases v with _ | _
    · simpa only [progressValues, if_false, Bool.false_eq_true] using ih (i + 1) prev
    · simp only [progressValues, if_true]
      by_cases hlt : prev < ((i * 100 / total : Nat) : Int)
      · rw [if_pos hlt]
        refine List.chain'_cons'.mpr ⟨?_, ih (i + 1) _⟩
        intro y hy
        have hmem := List.mem_of_mem_head? hy
        have := (progressValues_mem rest (i + 1) _ hmem).1
        exact_mod_cast this
      · rw [if_neg hlt]
        exact ih (i + 1) prev

lemma reportedProgress_le {valids : List Bool} {x : Nat}
    (hx : x ∈ reportedProgress valids) : x ≤ 100 := by
  obtain ⟨_, j, _, hj2, hj3⟩ := progressValues_mem valids 0 (-1) hx
  have hjlt : j < valids.length := by omega
  have htot : 0 < valids.length := by omega
  have hlt : j * 100 / valids.length < 100 := by
    rw [Nat.div_lt_iff_lt_mul htot]
    omega
  omega

/-! ## Helper lemmas: concrete scenarios -/

lemma genA_injective : Function.Injective genA := by
  intro a b h
  have h2 : (a + 1) = (b + 1) := by
    have h3 := congrArg (fun s : String => s.data.length) h
    simpa [genA] using h3
  omega

lemma inv_s0 : Inv genA s0 := by
  refine ⟨⟨?_, ?_, ?_⟩, ?_⟩ <;> simp [s0, Consistent, FreshSupply]

/-! ## Claims -/

/-- C1, counterexample to the claim as stated: after a cancelled `initialize`
on a fresh library (cancel token observed at the second polled item of two),
the operation returns normally, yet the resulting reachable state violates
dual-store consistency: the embedded-files mapping still records the uuid
written for the first item while both stores were purged. -/
theorem C1_counterexample : cancelRun.2 = none ∧ ¬ Consistent cancelRun.1 := by
  decide

/-- C1 (amended): every public operation preserves dual-store consistency —
each uuid in the embedded-files mapping has exactly one Item Record and
exactly one vector — provided the operation raises no error, any cancel
token is never observed set, every scanned file is a valid image with a
non-empty embedding, and every path already in the Scan Profile is
re-embedded by the scan; a cancelled scan instead leaves the uuids it wrote
dangling in the mapping (see the counterexample). -/
theorem C1_dual_store_amended (gen : Nat → String)
    (hgen : Function.Injective gen) :
    (∀ (s : LibState) (paths : List String),
      Inv gen s → Inv gen (removeEmbeddings s paths).1) ∧
    (∀ (s : LibState) (paths : List String),
      Inv gen s → Inv gen (deleteFiles s paths).1) ∧
    (∀ (s : LibState) (now : Nat) (files : List FileEntry)
      (cancel : Nat → Bool) (extLocked force : Bool),
      Inv gen s → (∀ n, cancel n = false) →
      (∀ f ∈ files, f.valid = true) → (∀ f ∈ files, f.emb ≠ []) →
      (∀ pu ∈ s.profile, pu.1 ∈ files.map FileEntry.path) →
      (initializeLib gen now files cancel extLocked force s).2 = none →
      Inv gen (initializeLib gen now files cancel extLocked force s).1) ∧
    (∀ (s : LibState) (now : Nat) (files : List FileEntry)
      (cancel : Nat → Bool) (extLocked : Bool),
      Inv gen s → (∀ n, cancel n = false) →
      (∀ f ∈ files, f.valid = true) → (∀ f ∈ files, f.emb ≠ []) →
      (incrementalInitialization gen now files cancel extLocked s).2 = none →
      Inv gen (incrementalInitialization gen now files cancel extLocked s).1) :=
  ⟨fun _ _ h => removeEmbeddings_inv h,
   fun _ _ h => deleteFiles_inv h,
   fun _ _ _ _ _ _ h hc hv he hcov hok =>
     initializeLib_inv hgen h hc hv he hcov hok,
   fun _ _ _ _ _ h hc hv he hok =>
     incrementalInitialization_inv hgen h hc hv he hok⟩

/-- Witness for C1: the amended preservation theorem applied to a full
initialization of the fresh library over one valid file. -/
theorem C1_dual_store_witness :
    Inv genA (initializeLib genA 7 filesF cancelNever false true s0).1 :=
  (C1_dual_store_amended genA genA_injective).2.2.1 s0 7 filesF cancelNever
    false true inv_s0 (fun _ => rfl) (by decide) (by decide) (by decide)
    (by decide)

/-- C2, counterexample to the claim as stated: the cancelled full scan
returns normally, but the embedded-files mapping does not equal its
pre-scan contents — the entry written for the first item survives. -/
theorem C2_counterexample :
    cancelRun.2 = none ∧ s0.profile = [] ∧
    cancelRun.1.profile = [("a.jpg", "a")] := by
  decide

/-- C2 (amended): when the cancel token is observed during a scan started by
`initialize`, `initialize` returns normally (the cancellation exception is
caught) and both stores are emptied — which equals their state at scan
start, since `initialize` always purges both stores before scanning — and
the persisted scan profile on disk is untouched; however the in-memory
embedded-files mapping keeps every entry written during the cancelled scan
(the result is the exception-point state with purged stores). -/
theorem C2_cancellation_amended (gen : Nat → String) (now : Nat)
    (files : List FileEntry) (cancel : Nat → Bool) (s s4 : LibState)
    (hemb : s.embedderSet = true)
    (hscan : scanLoop gen now cancel files 0
      { s with loaded := true, table := [], vdb := [],
               lastScanned := now, savedLastScanned := now } =
      (s4, some .cancelled)) :
    initializeLib gen now files cancel false true s =
      ({ s4 with table := [], vdb := [] }, none) ∧
    s4.savedProfile = s.savedProfile := by
  constructor
  · rw [initializeLib_forced_eq hemb, hscan]
  · have hfr := (@scanLoop_frame gen now cancel files 0
      { s with loaded := true, table := [], vdb := [],
               lastScanned := now, savedLastScanned := now }).2.2.2.1
    rw [hscan] at hfr
    exact hfr

/-- Witness for C2: the amended cancellation theorem applied to the
two-file scenario whose cancel token trips at the second polled item. -/
theorem C2_cancellation_witness :
    initializeLib genA 5 files2 cancel1 false true s0 =
      ({ s4c with table := [], vdb := [] }, none) ∧
    s4c.savedProfile = s0.savedProfile :=
  C2_cancellation_amended genA 5 files2 cancel1 s0 s4c rfl (by decide)

/-- C3: with a non-empty Scan Profile, `incremental_initialization` only
loads the databases and returns — it neither scans nor calls
`remove_embeddings`, contradicting its own docstring and the spec.  On a
library whose profile holds the on-disk-deleted `g.jpg` while the new file
`f.jpg` sits on disk, the state is returned unchanged: `f.jpg` is never
embedded and `g.jpg` keeps its profile entry, row and vector. -/
theorem C3_incremental_noop :
    incrementalInitialization genA 9 filesF cancelNever false sG = (sG, none) ∧
    (incrementalInitialization genA 9 filesF cancelNever false sG).1.profile.lookup
      "f.jpg" = none ∧
    (incrementalInitialization genA 9 filesF cancelNever false sG).1.profile.lookup
      "g.jpg" = some "ug" ∧
    (incrementalInitialization genA 9 filesF cancelNever false sG).1.table.countP
      (fun r => r.uuid == "ug") = 1 ∧
    (incrementalInitialization genA 9 filesF cancelNever false sG).1.vdb.countP
      (fun kv => kv.1 == "ug") = 1 := by
  decide

/-- C4, counterexample to the claim as stated: with two candidates of equal
score, rerank returns them in reverse input order, not input order — the
reversal of a stable ascending argsort reverses ties. -/
theorem C4_counterexample :
    rerankList (fun _ _ => (0 : Int)) "q" ["x", "y"] = ["y", "x"] ∧
    rerankList (fun _ _ => (0 : Int)) "q" ["x", "y"] ≠ ["x", "y"] := by
  decide

/-- C4 (amended): the rerank output is a permutation of its input ordered by
non-increasing Ranker score, with equal-score candidates appearing in
REVERSE original input order (under the stable model of `np.argsort`); and
`query(text, k)` truncates the reranked list to at most `max k 0`
elements. -/
theorem C4_rerank_amended :
    (∀ (score : String → String → Int) (text : String)
      (candidates : List String),
      (rerankList score text candidates).Perm candidates ∧
      (rerankList score text candidates).Pairwise
        (fun a b => score text b ≤ score text a) ∧
      ((argsortAsc (candidates.map (score text))).reverse).Pairwise
        (fun i j => (candidates.map (score text)).getD i 0 =
          (candidates.map (score text)).getD j 0 → j ≤ i)) ∧
    (∀ (r : DocEmbeddingRetriever) (text : String) (k : Int)
      (l : List String), query r text k = .ok l → l.length ≤ k.toNat) := by
  constructor
  · intro score text candidates
    exact ⟨rerankList_perm score text candidates,
      rerankList_sorted score text candidates,
      argsortAsc_reverse_ties (candidates.map (score text))⟩
  · intro r text k l hq
    rcases hdp : r.doc_provider with _ | dp
    · rw [query_uninit (Or.inl hdp)] at hq
      exact absurd hq (by simp)
    · rcases hidx : r.index with _ | idx
      · rw [query_uninit (Or.inr hidx)] at hq
        exact absurd hq (by simp)
      · by_cases hg : text = "" ∨ k ≤ 0
        · rw [query_empty hdp hidx text k hg] at hq
          obtain rfl : l = [] := by simpa using hq.symm
          simp
        · push_neg at hg
          rw [query_run hdp hidx hg.1 (by omega)] at hq
          obtain rfl : l = _ := by simpa using hq.symm
          have hk0 : (0 : Int) ≤ k := by omega
          rw [pySliceTo, if_pos hk0]
          rw [List.length_take]
          exact min_le_left _ _

/-- Witness for C4: the truncation clause applied to the concrete
initialized retriever at `k = 1`. -/
theorem C4_rerank_witness : (["doc"] : List String).length ≤ (1 : Int).toNat :=
  C4_rerank_amended.2 r0 "t" 1 ["doc"] (by rfl)

/-- C5, counterexample to the claim as stated: a forced `initialize` on a
loaded non-empty library while the scan lock is held does raise the
distinguished lock-contention error, but only after purging both stores —
deletion work is performed before the lock is acquired. -/
theorem C5_counterexample :
    (initializeLib genA 7 [] cancelNever true true sL).2 = some .lockFailure ∧
    (initializeLib genA 7 [] cancelNever true true sL).1.table = [] ∧
    sL.table ≠ [] ∧
    (initializeLib genA 7 [] cancelNever true true sL).1.vdb = [] ∧
    sL.vdb ≠ [] := by
  decide

/-- C5 (amended): `demolish` fails immediately with `LockAcquisitionFailure`
and no state change when the lock is held; a forced `initialize` with the
lock held also fails immediately with `LockAcquisitionFailure` and performs
no scan, but its force-reinit purge of both stores happens before the lock
acquire; and `incremental_initialization` with a non-empty Scan Profile
takes no lock at all — with the lock held it returns normally after at most
loading the databases. -/
theorem C5_lock_amended :
    (∀ s : LibState, demolish true s = (s, some .lockFailure)) ∧
    (∀ (gen : Nat → String) (now : Nat) (files : List FileEntry)
      (cancel : Nat → Bool) (s : LibState), s.embedderSet = true →
      initializeLib gen now files cancel true true s =
        ({ s with loaded := true, table := [], vdb := [] },
          some .lockFailure)) ∧
    (∀ (gen : Nat → String) (now : Nat) (files : List FileEntry)
      (cancel : Nat → Bool) (s : LibState),
      s.profile ≠ [] → s.embedderSet = true →
      incrementalInitialization gen now files cancel true s =
        (if lib_is_ready s then s else { s with loaded := true }, none)) :=
  ⟨fun _ => rfl,
   fun _ _ _ _ _ hemb => initializeLib_locked_eq hemb,
   fun _ _ _ _ _ hp hemb => incrementalInitialization_nonempty_eq hp hemb⟩

/-- Witness for C5: the three clauses applied to the loaded one-image
library with the lock held. -/
theorem C5_lock_witness :
    demolish true sL = (sL, some .lockFailure) ∧
    initializeLib genA 7 [] cancelNever true true sL =
      ({ sL with loaded := true, table := [], vdb := [] },
        some .lockFailure) ∧
    incrementalInitialization genA 7 [] cancelNever true sL =
      (if lib_is_ready sL then sL else { sL with loaded := true }, none) :=
  ⟨C5_lock_amended.1 sL,
   C5_lock_amended.2.1 genA 7 [] cancelNever sL rfl,
   C5_lock_amended.2.2 genA 7 [] cancelNever sL (by decide) rfl⟩

/-- C6: for an initialized pipeline, non-empty text and `k > 0`,
`query(text, k)` asks the index for exactly `k * 20` nearest neighbors,
resolves each returned id through the document provider dropping
unresolvable ids silently, and every surviving candidate is the message of
a resolved record. -/
theorem C6_overfetch (r : DocEmbeddingRetriever) (dp : Int → Option ChatRecord)
    (idx : List Int → Int → List Int) (hdp : r.doc_provider = some dp)
    (hidx : r.index = some idx) (text : String) (k : Int)
    (ht : text ≠ "") (hk : 0 < k) :
    query r text k =
      .ok (pySliceTo
        (rerankList r.rankerPredict text
          ((idx (r.transformerEncode text) (k * 20)).filterMap
            (fun i => (dp i).map ChatRecord.message))) k) ∧
    ∀ c ∈ (idx (r.transformerEncode text) (k * 20)).filterMap
        (fun i => (dp i).map ChatRecord.message),
      ∃ i ∈ idx (r.transformerEncode text) (k * 20),
        ∃ rec, dp i = some rec ∧ rec.message = c := by
  constructor
  · exact query_run hdp hidx ht hk
  · intro c hc
    obtain ⟨i, hi, hf⟩ := List.mem_filterMap.mp hc
    obtain ⟨rec, hrec, hmsg⟩ := Option.map_eq_some'.mp hf
    exact ⟨i, hi, rec, hrec, hmsg⟩

/-- Witness for C6: the over-fetch contract applied to the concrete
initialized retriever at `k = 1`. -/
theorem C6_overfetch_witness :
    query r0 "t" 1 =
      .ok (pySliceTo
        (rerankList r0.rankerPredict "t"
          ((idx0 (r0.transformerEncode "t") (1 * 20)).filterMap
            (fun i => (dp0 i).map ChatRecord.message))) 1) ∧
    ∀ c ∈ (idx0 (r0.transformerEncode "t") (1 * 20)).filterMap
        (fun i => (dp0 i).map ChatRecord.message),
      ∃ i ∈ idx0 (r0.transformerEncode "t") (1 * 20),
        ∃ rec, dp0 i = some rec ∧ rec.message = c :=
  C6_overfetch r0 dp0 idx0 rfl rfl "t" 1 (by decide) (by decide)

/-- C7: calling `query` or the retrieve stage before `initialize` raises the
usage error; once initialized, `query` with empty text returns the empty
list for every `k`, and `query` with non-positive `k` returns the empty
list for every text, never raising. -/
theorem C7_query_guards :
    (∀ (r : DocEmbeddingRetriever) (text : String) (k : Int),
      r.doc_provider = none ∨ r.index = none →
      query r text k = .error "Not initialized" ∧
      retrieve r text k = .error "Not initialized") ∧
    (∀ (r : DocEmbeddingRetriever) (dp : Int → Option ChatRecord)
      (idx : List Int → Int → List Int),
      r.doc_provider = some dp → r.index = some idx →
      (∀ k : Int, query r "" k = .ok []) ∧
      (∀ (text : String) (k : Int), k ≤ 0 → query r text k = .ok [])) := by
  constructor
  · intro r text k h
    exact ⟨query_uninit h, retrieve_uninit h⟩
  · intro r dp idx hdp hidx
    constructor
    · intro k
      exact query_empty hdp hidx "" k (Or.inl rfl)
    · intro text k hk
      exact query_empty hdp hidx text k (Or.inr hk)

/-- Witness for C7: guards applied to the unbuilt retriever and to the
concrete initialized retriever on empty text and `k = 0`. -/
theorem C7_query_guards_witness :
    (query rUninit "t" 3 = .error "Not initialized" ∧
     retrieve rUninit "t" 3 = .error "Not initialized") ∧
    query r0 "" 5 = .ok [] ∧ query r0 "valid" 0 = .ok [] :=
  ⟨C7_query_guards.1 rUninit "t" 3 (Or.inl rfl),
   (C7_query_guards.2 r0 dp0 idx0 rfl rfl).1 5,
   (C7_query_guards.2 r0 dp0 idx0 rfl rfl).2 "valid" 0 (by decide)⟩

/-- C8, counterexample to the claim as stated: the cancelled initialize of
the fresh library persists `last_scanned = 5` (the cancelled scan's start
time) although the pre-scan persisted value was 0. -/
theorem C8_counterexample :
    cancelRun.2 = none ∧ s0.savedLastScanned = 0 ∧
    cancelRun.1.savedLastScanned = 5 ∧
    cancelRun.1.savedLastScanned ≠ s0.savedLastScanned := by
  decide

/-- C8 (amended): `last_scanned` is set and persisted at the START of every
scan that acquires the lock — before any item is processed — so after any
forced `initialize` run (successful, cancelled or aborted) the in-memory
and persisted `last_scanned` both equal the scan start time, not the
pre-scan value. -/
theorem C8_last_scanned_amended (gen : Nat → String) (now : Nat)
    (files : List FileEntry) (cancel : Nat → Bool) (s : LibState)
    (hemb : s.embedderSet = true) :
    (initializeLib gen now files cancel false true s).1.savedLastScanned = now ∧
    (initializeLib gen now files cancel false true s).1.lastScanned = now := by
  rw [initializeLib_forced_eq hemb]
  have hfr := @scanLoop_frame gen now cancel files 0
    { s with loaded := true, table := [], vdb := [],
             lastScanned := now, savedLastScanned := now }
  rcases hsc : scanLoop gen now cancel files 0
      { s with loaded := true, table := [], vdb := [],
               lastScanned := now, savedLastScanned := now } with ⟨s4, e⟩
  rw [hsc] at hfr
  rcases e with _ | e
  · exact ⟨hfr.2.2.2.2.2, hfr.2.2.2.2.1⟩
  · rcases e
    · exact ⟨hfr.2.2.2.2.2, hfr.2.2.2.2.1⟩
    · exact ⟨hfr.2.2.2.2.2, hfr.2.2.2.2.1⟩
    · exact ⟨hfr.2.2.2.2.2, hfr.2.2.2.2.1⟩

/-- Witness for C8: the amended timestamp theorem applied to the cancelled
two-file scenario. -/
theorem C8_last_scanned_witness :
    (initializeLib genA 5 files2 cancel1 false true s0).1.savedLastScanned = 5 ∧
    (initializeLib genA 5 files2 cancel1 false true s0).1.lastScanned = 5 :=
  C8_last_scanned_amended genA 5 files2 cancel1 s0 rfl

/-- C9: during one scan, every value handed to the progress reporter is an
integer between 0 and 100, and the reported sequence is strictly
increasing — hence monotonically non-decreasing and never repeating the
previously reported value. -/
theorem C9_progress :
    ∀ valids : List Bool,
      (∀ x ∈ reportedProgress valids, x ≤ 100) ∧
      List.Chain' (fun a b : Nat => a < b) (reportedProgress valids) :=
  fun valids =>
    ⟨fun _ hx => reportedProgress_le hx,
     progressValues_chain valids 0 (-1)⟩

/-- C10: on a ready library with a duplicate-free Scan Profile,
`remove_embeddings` deletes exactly the profile entry, the rows and the
vectors of the uuid mapped by each requested path that, after stripping
leading separators, is present in the profile; empty and unknown paths are
skipped without error, everything else (including the remaining profile
entries, rows, vectors and all other state fields) is unchanged, and the
shrunk profile is persisted; the empty request is a no-op. -/
theorem C10_remove_frame (s : LibState) (paths : List String)
    (hready : lib_is_ready s = true)
    (hnd : (s.profile.map Prod.fst).Nodup) (hne : paths ≠ []) :
    removeEmbeddings s paths =
      ({ s with
          profile := s.profile.filter
            (fun pu => !((removalKeys paths).contains pu.1)),
          table := s.table.filter
            (fun r => !(uuidRemoved s.profile (removalKeys paths) r.uuid)),
          vdb := s.vdb.filter
            (fun kv => !(uuidRemoved s.profile (removalKeys paths) kv.1)),
          savedProfile := s.profile.filter
            (fun pu => !((removalKeys paths).contains pu.1)) }, none) ∧
    removeEmbeddings s [] = (s, none) := by
  have hnr : (!lib_is_ready s) = false := by
    rw [hready]
    rfl
  have hie : paths.isEmpty = false := by
    rcases hb : paths.isEmpty with _ | _
    · rfl
    · exact absurd (List.isEmpty_iff.mp hb) hne
  constructor
  · unfold removeEmbeddings
    rw [if_neg (by simp [hnr]), if_neg (by simp [hie])]
    show ({ paths.foldl removeOne s with
        savedProfile := (paths.foldl removeOne s).profile }, none) = _
    obtain ⟨f1, f2, f3, f4, f5, f6, f7⟩ := removeFold_frame paths s
    refine Prod.ext ?_ rfl
    refine LibState.ext ?_ ?_ ?_ ?_ ?_ ?_ ?_ ?_ ?_ ?_
    · exact f1
    · exact f2
    · exact f3
    · exact removeFold_table paths s hnd
    · exact removeFold_vdb paths s hnd
    · exact removeFold_profile paths s hnd
    · exact removeFold_profile paths s hnd
    · exact f5
    · exact f6
    · exact f7
  · unfold removeEmbeddings
    rw [if_neg (by simp [hnr])]
    rfl

/-- Witness for C10: the frame theorem applied to the loaded one-image
library with one present path (with a leading separator), one empty path
and one unknown path. -/
theorem C10_remove_frame_witness :
    removeEmbeddings sG ["/g.jpg", "", "nope"] =
      ({ sG with
          profile := sG.profile.filter
            (fun pu => !((removalKeys ["/g.jpg", "", "nope"]).contains pu.1)),
          table := sG.table.filter
            (fun r => !(uuidRemoved sG.profile
              (removalKeys ["/g.jpg", "", "nope"]) r.uuid)),
          vdb := sG.vdb.filter
            (fun kv => !(uuidRemoved sG.profile
              (removalKeys ["/g.jpg", "", "nope"]) kv.1)),
          savedProfile := sG.profile.filter
            (fun pu => !((removalKeys ["/g.jpg", "", "nope"]).contains pu.1)) },
        none) ∧
    removeEmbeddings sG [] = (sG, none) :=
  C10_remove_frame sG ["/g.jpg", "", "nope"] rfl (by decide) (by decide)

end KnowledgeLLM
